import Mathlib

/-!
Verification development for the mcp-framework-v2 repository.

The definitions below are shallow embeddings of the Python sources:
  * `src/src/plugins/chat_handler.py`  (streaming tool-call orchestration)
  * `src/src/plugins/session_manager.py` (session registry)

Python `datetime` instants are modelled as natural numbers (seconds),
`uuid`-based fresh-id generation is modelled by a threaded counter, and
Python exceptions are modelled with `Except`/`Option`.  Dict stores with
insertion order are modelled as association lists with unique keys.
-/

/-! ## JSON values (the fragment of Python values produced by `json.loads`)

`Json.fnum` holds the raw token of a non-integer numeric literal (Python
floats are kept opaque; no claim inspects them). Objects are association
lists in parse order. -/

inductive Json where
  | null : Json
  | bool : Bool → Json
  | num : Int → Json
  | fnum : String → Json
  | str : String → Json
  | arr : List Json → Json
  | obj : List (String × Json) → Json
deriving Inhabited, Repr

/-! ## A model of Python `json.loads` (strict mode)

Recursive-descent parser over `List Char`, fuelled by input length.
JSON whitespace is space, tab, newline, carriage return, exactly as in
CPython's `json` module.  `NaN`/`Infinity`/`-Infinity` are accepted (the
CPython default) as opaque `fnum` tokens.  `\uXXXX` escapes are decoded
code-point-wise (surrogate-pair recombination is not modelled; no claim
exercises it). -/

def isJsonWs (c : Char) : Bool :=
  c = ' ' || c = '\t' || c = '\n' || c = '\r'

def skipWs (cs : List Char) : List Char := cs.dropWhile isJsonWs

def hexVal (c : Char) : Option Nat :=
  if '0' ≤ c ∧ c ≤ '9' then some (c.toNat - '0'.toNat)
  else if 'a' ≤ c ∧ c ≤ 'f' then some (c.toNat - 'a'.toNat + 10)
  else if 'A' ≤ c ∧ c ≤ 'F' then some (c.toNat - 'A'.toNat + 10)
  else none

/-- Parse the body of a JSON string after the opening quote; returns the
decoded characters and the remaining input after the closing quote. -/
def parseStringBody : List Char → Option (List Char × List Char)
  | [] => none
  | '"' :: rest => some ([], rest)
  | '\\' :: rest =>
    match rest with
    | '"' :: r => (parseStringBody r).map (fun p => ('"' :: p.1, p.2))
    | '\\' :: r => (parseStringBody r).map (fun p => ('\\' :: p.1, p.2))
    | '/' :: r => (parseStringBody r).map (fun p => ('/' :: p.1, p.2))
    | 'b' :: r => (parseStringBody r).map (fun p => ('\x08' :: p.1, p.2))
    | 'f' :: r => (parseStringBody r).map (fun p => ('\x0c' :: p.1, p.2))
    | 'n' :: r => (parseStringBody r).map (fun p => ('\n' :: p.1, p.2))
    | 'r' :: r => (parseStringBody r).map (fun p => ('\r' :: p.1, p.2))
    | 't' :: r => (parseStringBody r).map (fun p => ('\t' :: p.1, p.2))
    | 'u' :: h1 :: h2 :: h3 :: h4 :: r =>
      match hexVal h1, hexVal h2, hexVal h3, hexVal h4 with
      | some a, some b, some c, some d =>
        (parseStringBody r).map
          (fun p => (Char.ofNat (a * 4096 + b * 256 + c * 16 + d) :: p.1, p.2))
      | _, _, _, _ => none
    | _ => none
  | c :: rest =>
    if c.toNat < 32 then none
    else (parseStringBody rest).map (fun p => (c :: p.1, p.2))

def digitsToNat (ds : List Char) : Nat :=
  ds.foldl (fun n c => n * 10 + (c.toNat - '0'.toNat)) 0

/-- Parse a JSON number token (CPython grammar: `-? int frac? exp?`,
`int = 0 | [1-9][0-9]*`).  Integer tokens become `Json.num`; tokens with a
fraction or exponent become opaque `Json.fnum` holding the raw text. -/
def parseNumber (cs : List Char) : Option (Json × List Char) :=
  let (neg, cs1) := match cs with
    | '-' :: r => (true, r)
    | _ => (false, cs)
  let (intDigits, cs2) := cs1.span Char.isDigit
  if intDigits.isEmpty then none
  else if intDigits.length > 1 ∧ intDigits.headD '0' = '0' then none
  else
    let (fracDigits, cs3) := match cs2 with
      | '.' :: r =>
        let (ds, r') := r.span Char.isDigit
        if ds.isEmpty then ([], cs2) else ('.' :: ds, r')
      | _ => ([], cs2)
    if cs3 ≠ cs2 ∧ fracDigits = [] then none
    else
      match cs2, fracDigits with
      | '.' :: _, [] => none
      | _, _ =>
        let (expDigits, cs4) := match cs3 with
          | e :: r =>
            if e = 'e' ∨ e = 'E' then
              let (sgn, r1) := match r with
                | s :: r1 => if s = '+' ∨ s = '-' then ([s], r1) else ([], r)
                | [] => ([], r)
              let (ds, r2) := r1.span Char.isDigit
              if ds.isEmpty then ([], cs3) else (e :: (sgn ++ ds), r2)
            else ([], cs3)
          | [] => ([], cs3)
        match cs3, expDigits with
        | 'e' :: _, [] => none
        | 'E' :: _, [] => none
        | _, _ =>
          if fracDigits = [] ∧ expDigits = [] then
            let n : Int := Int.ofNat (digitsToNat intDigits)
            some (Json.num (if neg then -n else n), cs2)
          else
            let raw := (if neg then ['-'] else []) ++ intDigits ++ fracDigits ++ expDigits
            some (Json.fnum (String.mk raw), cs4)

mutual

def parseValue : Nat → List Char → Option (Json × List Char)
  | 0, _ => none
  | fuel + 1, cs =>
    match skipWs cs with
    | [] => none
    | '{' :: r =>
      match skipWs r with
      | '}' :: r2 => some (Json.obj [], r2)
      | _ => (parseMembers fuel (skipWs r)).map (fun p => (Json.obj p.1, p.2))
    | '[' :: r =>
      match skipWs r with
      | ']' :: r2 => some (Json.arr [], r2)
      | _ => (parseElements fuel (skipWs r)).map (fun p => (Json.arr p.1, p.2))
    | '"' :: r =>
      (parseStringBody r).map (fun p => (Json.str (String.mk p.1), p.2))
    | 't' :: 'r' :: 'u' :: 'e' :: r => some (Json.bool true, r)
    | 'f' :: 'a' :: 'l' :: 's' :: 'e' :: r => some (Json.bool false, r)
    | 'n' :: 'u' :: 'l' :: 'l' :: r => some (Json.null, r)
    | 'N' :: 'a' :: 'N' :: r => some (Json.fnum "NaN", r)
    | 'I' :: 'n' :: 'f' :: 'i' :: 'n' :: 'i' :: 't' :: 'y' :: r =>
      some (Json.fnum "Infinity", r)
    | '-' :: 'I' :: 'n' :: 'f' :: 'i' :: 'n' :: 'i' :: 't' :: 'y' :: r =>
      some (Json.fnum "-Infinity", r)
    | cs' => parseNumber cs'

/-- Parse `string ':' value (',' ... | '}')` members; entered at (possibly
whitespace-preceded) first key, with at least one member present. -/
def parseMembers : Nat → List Char → Option (List (String × Json) × List Char)
  | 0, _ => none
  | fuel + 1, cs =>
    match skipWs cs with
    | '"' :: r =>
      match parseStringBody r with
      | none => none
      | some (key, r2) =>
        match skipWs r2 with
        | ':' :: r3 =>
          match parseValue fuel r3 with
          | none => none
          | some (v, r4) =>
            match skipWs r4 with
            | ',' :: r5 =>
              (parseMembers fuel r5).map
                (fun p => ((String.mk key, v) :: p.1, p.2))
            | '}' :: r5 => some ([(String.mk key, v)], r5)
            | _ => none
        | _ => none
    | _ => none

def parseElements : Nat → List Char → Option (List Json × List Char)
  | 0, _ => none
  | fuel + 1, cs =>
    match parseValue fuel cs with
    | none => none
    | some (v, r) =>
      match skipWs r with
      | ',' :: r2 => (parseElements fuel r2).map (fun p => (v :: p.1, p.2))
      | ']' :: r2 => some ([v], r2)
      | _ => none

end

/-- Model of Python `json.loads` in strict mode: parse one value, then
require only whitespace to remain. -/
def jsonLoads (s : String) : Option Json :=
  match parseValue (s.length + 1) s.toList with
  | none => none
  | some (v, rest) => if skipWs rest = [] then some v else none

/-! ## Python string helpers -/

/-- ASCII whitespace stripped by Python `str.strip()` (Unicode spaces are
outside the modelled character set). -/
def isPySpace (c : Char) : Bool :=
  c = ' ' || c = '\t' || c = '\n' || c = '\r' || c = '\x0b' || c = '\x0c'

/-- Model of Python `str.strip()`. -/
def pyStrip (s : String) : String :=
  String.mk (((s.toList.dropWhile isPySpace).reverse.dropWhile isPySpace).reverse)

/-- Truthiness of an optional string (Python: `None` and `""` are falsy). -/
def truthyStr : Option String → Bool
  | none => false
  | some s => s ≠ ""

/-! ## Tool-call drafts and stream deltas (`chat_handler.py`)

A draft mirrors the dicts built by `_collect_tool_call`:
`{"id": ..., "type": "function", "function": {"name": ..., "arguments": ...}}`.
A delta mirrors one element of `delta["tool_calls"]` in a stream chunk;
absent keys are `none` (`tool_call.get("index", 0)` defaults to 0, and
Python truthiness identifies `None` with `""` for the id/name/arguments
updates).  Non-string argument chunks pass through `str()` in the source,
so argument deltas are modelled as strings directly. -/

structure ToolFunction where
  name : String
  arguments : String
deriving DecidableEq, Inhabited, Repr

structure ToolCallDraft where
  id : String
  type : String
  function : ToolFunction
deriving DecidableEq, Inhabited, Repr

structure FunctionDelta where
  name : Option String
  arguments : Option String
deriving DecidableEq, Inhabited, Repr

structure ToolCallDelta where
  index : Option Nat
  id : Option String
  function : Option FunctionDelta
deriving DecidableEq, Inhabited, Repr

/-- The placeholder draft appended by the `while len(tool_calls) <= index`
loop; `uuid.uuid4().hex[:8]` is modelled by a threaded counter `k`. -/
def placeholderDraft (k : Nat) : ToolCallDraft :=
  { id := "call_" ++ toString k, type := "function",
    function := { name := "", arguments := "" } }

/-- Append `n` placeholder drafts (the body of the while-loop runs exactly
`index + 1 - len(tool_calls)` times). -/
def padCount (tcs : List ToolCallDraft) (fresh : Nat) : Nat → List ToolCallDraft × Nat
  | 0 => (tcs, fresh)
  | n + 1 => padCount (tcs ++ [placeholderDraft fresh]) (fresh + 1) n

def padDrafts (tcs : List ToolCallDraft) (fresh index : Nat) : List ToolCallDraft × Nat :=
  padCount tcs fresh (index + 1 - tcs.length)

/-- The update block of `_collect_tool_call` applied to the draft at the
delta's index. -/
def updateDraft (d : ToolCallDelta) (t : ToolCallDraft) : ToolCallDraft :=
  let t := if truthyStr d.id then { t with id := d.id.getD "" } else t
  match d.function with
  | none => t
  | some f =>
    let t := if truthyStr f.name then
        { t with function := { t.function with name := f.name.getD "" } } else t
    if truthyStr f.arguments then
      { t with function :=
          { t.function with arguments := t.function.arguments ++ f.arguments.getD "" } }
    else t

/-- `ChatHandlerPlugin._collect_tool_call`: ensure the draft at the delta's
index exists (padding with placeholders), then merge the delta into it. -/
def collect_tool_call (tcs : List ToolCallDraft) (fresh : Nat) (d : ToolCallDelta) :
    List ToolCallDraft × Nat :=
  let index := d.index.getD 0
  let (tcs2, fresh2) := padDrafts tcs fresh index
  (tcs2.set index (updateDraft d (tcs2.getD index (placeholderDraft 0))), fresh2)

/-- Apply a sequence of deltas in arrival order. -/
def collectAll (tcs : List ToolCallDraft) (fresh : Nat) :
    List ToolCallDelta → List ToolCallDraft × Nat
  | [] => (tcs, fresh)
  | d :: ds =>
    let p := collect_tool_call tcs fresh d
    collectAll p.1 p.2 ds

/-! ## Messages (`core/models.py`)

`ChatMessage` (role, optional content, optional tool_calls) and
`ToolMessage` (role, tool_call_id, optional content) are merged into one
record; constructions coming from `ChatMessage(...)` leave `tool_call_id`
as `none` — the pydantic `ChatMessage` class has no such field at all. -/

structure Msg where
  role : String
  content : Option String := none
  tool_calls : Option (List ToolCallDraft) := none
  tool_call_id : Option String := none
deriving DecidableEq, Inhabited, Repr

/-! ## A model of Python `json.dumps`

Default separators `", "`/`": "`; `ensure_ascii` escapes non-ASCII as
`\uXXXX` (code points above 0xFFFF and float repr are approximated — no
claim depends on them). -/

def hexDigit (n : Nat) : Char :=
  if n < 10 then Char.ofNat ('0'.toNat + n) else Char.ofNat ('a'.toNat + (n - 10))

def hex4 (n : Nat) : String :=
  String.mk [hexDigit (n / 4096 % 16), hexDigit (n / 256 % 16),
             hexDigit (n / 16 % 16), hexDigit (n % 16)]

def escChar (ensureAscii : Bool) (c : Char) : String :=
  if c = '"' then "\\\""
  else if c = '\\' then "\\\\"
  else if c = '\n' then "\\n"
  else if c = '\r' then "\\r"
  else if c = '\t' then "\\t"
  else if c = '\x08' then "\\b"
  else if c = '\x0c' then "\\f"
  else if c.toNat < 32 then "\\u" ++ hex4 c.toNat
  else if ensureAscii ∧ c.toNat > 126 then "\\u" ++ hex4 c.toNat
  else String.singleton c

def escString (ensureAscii : Bool) (s : String) : String :=
  "\"" ++ String.join (s.toList.map (escChar ensureAscii)) ++ "\""

mutual

def dumpsJson (ensureAscii : Bool) : Json → String
  | .null => "null"
  | .bool true => "true"
  | .bool false => "false"
  | .num n => toString n
  | .fnum s => s
  | .str s => escString ensureAscii s
  | .arr xs => "[" ++ dumpsArr ensureAscii xs ++ "]"
  | .obj kvs => "\x7b" ++ dumpsObj ensureAscii kvs ++ "\x7d"

def dumpsArr (ensureAscii : Bool) : List Json → String
  | [] => ""
  | [x] => dumpsJson ensureAscii x
  | x :: y :: xs => dumpsJson ensureAscii x ++ ", " ++ dumpsArr ensureAscii (y :: xs)

def dumpsObj (ensureAscii : Bool) : List (String × Json) → String
  | [] => ""
  | [kv] => escString ensureAscii kv.1 ++ ": " ++ dumpsJson ensureAscii kv.2
  | kv :: kv2 :: kvs =>
    escString ensureAscii kv.1 ++ ": " ++ dumpsJson ensureAscii kv.2 ++ ", " ++
      dumpsObj ensureAscii (kv2 :: kvs)

end

/-! ## Argument repair (`_execute_tool_call`, lines 315-338)

`function["arguments"]` may be a string, an already-structured mapping, or
anything else; the repair chain never raises. -/

inductive ArgValue where
  | str (s : String)
  | dict (kvs : List (String × Json))
  | other
deriving Inhabited

/-- Python `str.startswith` / `str.endswith` (over the character list). -/
def pyStartsWith (s pre : String) : Bool := pre.toList.isPrefixOf s.toList

def pyEndsWith (s suf : String) : Bool := suf.toList.reverse.isPrefixOf s.toList.reverse

/-- The brace-repair pass: prepend `{` if the (already stripped) string
does not start with one, then append `}` if the result does not end with
one — the `endswith` test runs after the prepend, as in the source. -/
def repairBraces (s : String) : String :=
  let s := if ¬ pyStartsWith s "\x7b" then "\x7b" ++ s else s
  if ¬ pyEndsWith s "\x7d" then s ++ "\x7d" else s

/-- The argument-parsing block of `_execute_tool_call`: strip; empty
becomes `"{}"`; strict parse; on failure one brace-repair pass and a
reparse; on continued failure the empty object.  Non-string, non-mapping
inputs are coerced to the empty object. -/
def parseArguments : ArgValue → Json
  | .dict kvs => Json.obj kvs
  | .other => Json.obj []
  | .str s =>
    let s := pyStrip s
    let s := if s = "" then "{}" else s
    match jsonLoads s with
    | some v => v
    | none =>
      match jsonLoads (repairBraces s) with
      | some v => v
      | none => Json.obj []

/-! ## MCP result post-processing (`_process_mcp_result`)

The tool collaborator is modelled as returning `Json` values; MCP
`TextContent` objects lie outside that domain, so `_process_single_mcp_item`
restricts to its `isinstance(item, (dict, list, str, int, float, bool,
type(None)))` branch, which returns the item unchanged. -/

def process_single_mcp_item (item : Json) : Json := item

def process_mcp_result (result : Json) : Json :=
  match result with
  | .arr items => .arr (items.map process_single_mcp_item)
  | r => process_single_mcp_item r

/-- Python truthiness of a `Json` value (used for `if result:`). -/
def jsonTruthy : Json → Bool
  | .null => false
  | .bool b => b
  | .num n => n ≠ 0
  | .fnum s => s ≠ "0.0"
  | .str s => s ≠ ""
  | .arr xs => ¬ xs.isEmpty
  | .obj kvs => ¬ kvs.isEmpty

/-- Python `str()` of a JSON-valued result (used when the processed result
is not a dict or list). -/
def pyStr : Json → String
  | .null => "None"
  | .bool true => "True"
  | .bool false => "False"
  | .num n => toString n
  | .fnum s => s
  | .str s => s
  | .arr _ => ""
  | .obj _ => ""

/-- Serialized content of the success-path tool message:
`json.dumps(processed, ensure_ascii=False)` for dicts and lists, else
`str(processed)`. -/
def toolContentOf (processed : Json) : String :=
  match processed with
  | .obj _ => dumpsJson false processed
  | .arr _ => dumpsJson false processed
  | _ => pyStr processed

/-- The error message of the missing-function-name path
("tool call is missing the function name"). -/
def missingFnMsg : String := "工具调用缺少函数名称"

/-! ## Tool execution (`_execute_tool_call`)

The tool collaborator `mcp_manager.execute_tool` is a parameter
`mcp : String → Json → Except String Json`; `Except.error e` models a
raised exception with text `e`.  The function returns the result value,
the message list after the appends, and the list of collaborator
invocations actually performed (empty when the collaborator was never
called).  Drafts always carry an `id` key, so `tool_call.get("id", ...)`
never falls back to its default. -/

def execute_tool_call (mcp : String → Json → Except String Json)
    (tc : ToolCallDraft) (msgs : List Msg) :
    Json × List Msg × List (String × Json) :=
  let tool_id := tc.id
  let function_name := tc.function.name
  if function_name = "" then
    let error_result := Json.obj [("error", Json.str missingFnMsg)]
    (error_result,
     msgs ++ [{ role := "tool", content := some (dumpsJson true error_result) }],
     [])
  else
    let arguments := parseArguments (.str tc.function.arguments)
    match mcp function_name arguments with
    | .ok result =>
      let processed := process_mcp_result result
      (processed,
       msgs ++ [{ role := "tool", tool_call_id := some tool_id,
                  content := some (toolContentOf processed) }],
       [(function_name, arguments)])
    | .error e =>
      let error_result := Json.obj [("error", Json.str e)]
      (error_result,
       msgs ++ [{ role := "tool", content := some (dumpsJson true error_result) }],
       [(function_name, arguments)])

/-! ## The interactive round loop (`_handle_interactive_chat`)

Yields are modelled as an `Event` trace; the presentation-only chunks
(`[正在执行工具]`, per-call headers, result displays, ...) are recorded
structurally rather than as rendered markdown.  `Event.errorEv` is the
terminal error fragment that `chat_completions` emits on an exception; the
round loop itself never produces one. -/

structure Chunk where
  content : Option String
  tool_call_deltas : List ToolCallDelta
  finish_reason : Option String
deriving DecidableEq, Inhabited, Repr

inductive Event where
  | chunk (c : Chunk)
  | execBegin
  | toolCallsInfo (tcs : List ToolCallDraft)
  | execOne (name : String)
  | toolResult (name : String) (result : Json)
  | execDone
  | errorEv (msg : String)
deriving Inhabited

def Event.isError : Event → Bool
  | .errorEv _ => true
  | _ => false

/-- The per-round accumulator `state` of `_handle_interactive_chat`, plus
the fresh-id counter threaded for placeholder drafts. -/
structure StreamState where
  content : String
  tool_calls : List ToolCallDraft
  finish : Option String
  fresh : Nat
deriving DecidableEq, Inhabited, Repr

def initStream (fresh : Nat) : StreamState :=
  { content := "", tool_calls := [], finish := none, fresh := fresh }

/-- `ChatHandlerPlugin._process_chunk` on a structured chunk (the dict
shape guards of the source correspond to the `Option` cases here). -/
def process_chunk (c : Chunk) (st : StreamState) : StreamState :=
  let st := match c.finish_reason with
    | some f => if f ≠ "" then { st with finish := some f } else st
    | none => st
  let st := match c.content with
    | some s => { st with content := st.content ++ s }
    | none => st
  c.tool_call_deltas.foldl
    (fun st d =>
      let p := collect_tool_call st.tool_calls st.fresh d
      { st with tool_calls := p.1, fresh := p.2 })
    st

/-- The inner `async for chunk in llm_client.chat_completion(...)` loop:
process each chunk, re-emit it, and break as soon as the accumulated
finish reason becomes `"tool_calls"`. -/
def streamLoop (st : StreamState) : List Chunk → StreamState × List Event
  | [] => (st, [])
  | c :: rest =>
    let st' := process_chunk c st
    if st'.finish = some "tool_calls" then (st', [Event.chunk c])
    else
      let p := streamLoop st' rest
      (p.1, Event.chunk c :: p.2)

/-- The per-round tool-execution loop (`for tool_call in state["tool_calls"]`),
accumulating messages, display events, and the collaborator invocations. -/
def runToolCalls (mcp : String → Json → Except String Json) :
    List ToolCallDraft → List Msg → List Msg × List Event × List (String × Json)
  | [], msgs => (msgs, [], [])
  | tc :: rest, msgs =>
    let function_name := tc.function.name
    let r := execute_tool_call mcp tc msgs
    let evs := [Event.execOne function_name] ++
      (if jsonTruthy r.1 then [Event.toolResult function_name r.1] else [])
    let p := runToolCalls mcp rest r.2.1
    (p.1, evs ++ p.2.1, r.2.2 ++ p.2.2)

/-- The continuation prompt appended after each tool round. -/
def continueMsg : Msg := { role := "user", content := some "请根据工具执行结果继续回答。" }

/-- `ChatHandlerPlugin._handle_interactive_chat`, structured as recursion
on the remaining round budget (`max_rounds = 5`).  Returns the number of
rounds entered, the final message list, and the emitted event trace. -/
def handle_interactive_chat (llm : List Msg → List Chunk)
    (mcp : String → Json → Except String Json) :
    Nat → List Msg → Nat → Nat × List Msg × List Event
  | 0, msgs, _ => (0, msgs, [])
  | fuel + 1, msgs, fresh =>
    let p := streamLoop (initStream fresh) (llm msgs)
    let st := p.1
    if st.finish ≠ some "tool_calls" ∨ st.tool_calls = [] then (1, msgs, p.2)
    else
      let assistant_msg : Msg :=
        { role := "assistant", content := some st.content, tool_calls := some st.tool_calls }
      let msgs := msgs ++ [assistant_msg]
      let evs := p.2 ++ [Event.execBegin, Event.toolCallsInfo st.tool_calls]
      let r := runToolCalls mcp st.tool_calls msgs
      let evs := evs ++ r.2.1 ++ [Event.execDone]
      let msgs := r.1 ++ [continueMsg]
      let rec' := handle_interactive_chat llm mcp fuel msgs st.fresh
      (rec'.1 + 1, rec'.2.1, evs ++ rec'.2.2)

def max_rounds : Nat := 5

/-! ## Session manager (`session_manager.py`)

Instants are naturals; each public operation receives the value of
`datetime.now()` as an explicit `now` parameter.  The `self.sessions`
dict is an insertion-ordered association list of `PySession` records with
pairwise-distinct ids (Python dict keys are unique); `session_id`
generation for an omitted id is not modelled — every claim supplies one. -/

structure PySession where
  id : String
  created_at : Nat
  last_accessed : Nat
  messages : List Msg
  metadata : List (String × Json)
  active : Bool
deriving Inhabited, Repr

structure SMState where
  sessions : List PySession
  timeout : Nat
  max_active : Nat
deriving Inhabited, Repr

/-- `SessionManagerPlugin._is_session_expired`. -/
def is_session_expired (timeout now : Nat) (s : PySession) : Bool :=
  if ¬ s.active then true
  else decide (s.last_accessed + timeout < now)

/-- Dict lookup `self.sessions.get(session_id)`. -/
def lookupSession (sessions : List PySession) (id : String) : Option PySession :=
  sessions.find? (fun s => s.id = id)

/-- In-place mutation of the session stored under `id` (Python mutates the
object held by the dict; ids are never changed by the updates used). -/
def setSession (sessions : List PySession) (id : String) (f : PySession → PySession) :
    List PySession :=
  sessions.map (fun s => if s.id = id then f s else s)

/-- Dict assignment `self.sessions[session_id] = session`: replace in place
if the key exists (keeping its insertion position), else append. -/
def putSession (sessions : List PySession) (sess : PySession) : List PySession :=
  if sessions.any (fun s => s.id = sess.id) then
    sessions.map (fun s => if s.id = sess.id then sess else s)
  else sessions ++ [sess]

/-- `sum(1 for s in self.sessions.values() if s.active and not self._is_session_expired(s))`. -/
def activeCount (now : Nat) (st : SMState) : Nat :=
  (st.sessions.filter
    (fun s => s.active ∧ ¬ is_session_expired st.timeout now s)).length

/-- `SessionManagerPlugin.get_session`: absent ids give `None`; expired
sessions are marked inactive and give `None`; otherwise `last_accessed`
is refreshed and the (refreshed) session is returned. -/
def get_session (now : Nat) (id : String) (st : SMState) : Option PySession × SMState :=
  match lookupSession st.sessions id with
  | none => (none, st)
  | some s =>
    if is_session_expired st.timeout now s then
      (none, { st with sessions := setSession st.sessions id (fun s => { s with active := false }) })
    else
      (some { s with last_accessed := now },
       { st with sessions := setSession st.sessions id (fun s => { s with last_accessed := now }) })

/-- `SessionManagerPlugin.update_session`. -/
def update_session (now : Nat) (id : String) (m : Msg) (st : SMState) : Bool × SMState :=
  match get_session now id st with
  | (none, st') => (false, st')
  | (some _, st') =>
    let sessions' := setSession st'.sessions id
      (fun s => { s with messages := s.messages ++ [m], last_accessed := now })
    (true, { st' with sessions := sessions' })

/-- `SessionManagerPlugin.delete_session`. -/
def delete_session (id : String) (st : SMState) : Bool × SMState :=
  if st.sessions.any (fun s => s.id = id) then
    (true, { st with sessions := st.sessions.filter (fun s => ¬ s.id = id) })
  else (false, st)

/-- `SessionManagerPlugin.set_session_metadata` (assoc-list update models
`session.metadata[key] = value`). -/
def set_session_metadata (now : Nat) (id key : String) (v : Json) (st : SMState) :
    Bool × SMState :=
  match get_session now id st with
  | (none, st') => (false, st')
  | (some _, st') =>
    let sessions' := setSession st'.sessions id
      (fun s => { s with
        metadata := if s.metadata.any (fun kv => kv.1 = key)
          then s.metadata.map (fun kv => if kv.1 = key then (key, v) else kv)
          else s.metadata ++ [(key, v)],
        last_accessed := now })
    (true, { st' with sessions := sessions' })

/-- `SessionManagerPlugin.get_session_metadata` (read-only result, but
`get_session` refreshes `last_accessed` as a side effect). -/
def get_session_metadata (now : Nat) (id : String) (key : Option String) (st : SMState) :
    Option Json × SMState :=
  match get_session now id st with
  | (none, st') => (none, st')
  | (some s, st') =>
    match key with
    | none => (some (Json.obj s.metadata), st')
    | some k => ((s.metadata.find? (fun kv => kv.1 = k)).map Prod.snd, st')

/-- `SessionManagerPlugin.cleanup_sessions`: collect the expired ids, then
delete each; returns the number collected. -/
def cleanup_sessions (now : Nat) (st : SMState) : Nat × SMState :=
  let expired_ids :=
    (st.sessions.filter (is_session_expired st.timeout now)).map (fun s => s.id)
  (expired_ids.length, expired_ids.foldl (fun acc i => (delete_session i acc).2) st)

/-- Python `min(active_sessions, key=lambda s: s.last_accessed)`: the first
element attaining the minimal key. -/
def minByLastAccessed : List PySession → Option PySession
  | [] => none
  | s :: rest =>
    some (rest.foldl (fun best x => if x.last_accessed < best.last_accessed then x else best) s)

/-- `SessionManagerPlugin._ensure_session_capacity`. -/
def ensure_session_capacity (now : Nat) (st : SMState) : SMState :=
  if activeCount now st ≥ st.max_active then
    let st := (cleanup_sessions now st).2
    if activeCount now st ≥ st.max_active then
      let active_sessions :=
        st.sessions.filter (fun s => s.active ∧ ¬ is_session_expired st.timeout now s)
      match minByLastAccessed active_sessions with
      | none => st
      | some oldest =>
        { st with sessions := setSession st.sessions oldest.id (fun s => { s with active := false }) }
    else st
  else st

/-- `SessionManagerPlugin.create_session` with an explicit id: return the
existing session if it is active and unexpired (refreshing
`last_accessed`); otherwise enforce capacity and insert a fresh record. -/
def create_session (now : Nat) (id : String) (st : SMState) : PySession × SMState :=
  match lookupSession st.sessions id with
  | some existing =>
    if existing.active ∧ ¬ is_session_expired st.timeout now existing then
      ({ existing with last_accessed := now },
       { st with sessions := setSession st.sessions id (fun s => { s with last_accessed := now }) })
    else
      let st := ensure_session_capacity now st
      let sess : PySession :=
        { id := id, created_at := now, last_accessed := now,
          messages := [], metadata := [], active := true }
      (sess, { st with sessions := putSession st.sessions sess })
  | none =>
    let st := ensure_session_capacity now st
    let sess : PySession :=
      { id := id, created_at := now, last_accessed := now,
        messages := [], metadata := [], active := true }
    (sess, { st with sessions := putSession st.sessions sess })

/-! ## Operation traces over the session manager (for the capacity invariant)

Each operation carries the wall-clock instant at which it runs; traces are
evaluated left to right. -/

inductive SMOp where
  | create (id : String)
  | get (id : String)
  | update (id : String) (m : Msg)
  | delete (id : String)
  | setMeta (id key : String) (v : Json)
  | getMeta (id : String) (key : Option String)
  | getMessages (id : String)
  | cleanup

/-- State effect of one public operation (`get_session_messages` touches
state only through its internal `get_session` call). -/
def smStep (now : Nat) (op : SMOp) (st : SMState) : SMState :=
  match op with
  | .create id => (create_session now id st).2
  | .get id => (get_session now id st).2
  | .update id m => (update_session now id m st).2
  | .delete id => (delete_session id st).2
  | .setMeta id key v => (set_session_metadata now id key v st).2
  | .getMeta id key => (get_session_metadata now id key st).2
  | .getMessages id => (get_session now id st).2
  | .cleanup => (cleanup_sessions now st).2

def runOps (trace : List (Nat × SMOp)) (st : SMState) : SMState :=
  trace.foldl (fun acc p => smStep p.1 p.2 acc) st

def emptySM (timeout max_active : Nat) : SMState :=
  { sessions := [], timeout := timeout, max_active := max_active }

/-! ## Heap model of message lists (`get_session_messages` aliasing)

Python lists are mutable objects; to reason about whether the collection
returned by `get_session_messages` is a copy of the live log, message
lists live in an explicit heap of list cells and sessions hold a cell
reference.  Slicing (`messages[-limit:]`) allocates a fresh cell;
returning `session.messages` returns the live cell. -/

structure HSession where
  id : String
  created_at : Nat
  last_accessed : Nat
  msgRef : Nat
  active : Bool
deriving DecidableEq, Inhabited, Repr

structure HState where
  heap : List (List Msg)
  sessions : List HSession
  timeout : Nat
deriving DecidableEq, Inhabited, Repr

def readRef (st : HState) (r : Nat) : List Msg := st.heap.getD r []

def h_is_expired (timeout now : Nat) (s : HSession) : Bool :=
  if ¬ s.active then true
  else decide (s.last_accessed + timeout < now)

/-- `get_session` over the heap model (same logic as `get_session`). -/
def h_get_session (now : Nat) (id : String) (st : HState) : Option HSession × HState :=
  match st.sessions.find? (fun s => s.id = id) with
  | none => (none, st)
  | some s =>
    if h_is_expired st.timeout now s then
      (none,
       { st with sessions :=
          st.sessions.map (fun x => if x.id = id then { x with active := false } else x) })
    else
      (some { s with last_accessed := now },
       { st with sessions :=
          st.sessions.map (fun x => if x.id = id then { x with last_accessed := now } else x) })

/-- `SessionManagerPlugin.get_session_messages`: returns (a reference to)
the message collection handed to the caller.  The session's live cell is
returned unless `limit` is truthy and the log is longer than `limit`, in
which case the slice `messages[-limit:]` allocates a fresh cell; an absent
session yields a fresh empty cell (the literal `[]`). -/
def h_get_session_messages (now : Nat) (id : String) (limit : Option Nat) (st : HState) :
    Nat × HState :=
  match h_get_session now id st with
  | (none, st') => (st'.heap.length, { st' with heap := st'.heap ++ [[]] })
  | (some s, st') =>
    let messages := readRef st' s.msgRef
    let takeSlice : Bool := match limit with
      | some l => l ≠ 0 ∧ messages.length > l
      | none => false
    if takeSlice then
      (st'.heap.length,
       { st' with heap := st'.heap ++ [messages.drop (messages.length - limit.getD 0)] })
    else (s.msgRef, st')

/-- `update_session` over the heap model: append to the session's live
cell and refresh `last_accessed`. -/
def h_update_session (now : Nat) (id : String) (m : Msg) (st : HState) : Bool × HState :=
  match h_get_session now id st with
  | (none, st') => (false, st')
  | (some s, st') =>
    (true,
     { st' with
        heap := st'.heap.set s.msgRef (readRef st' s.msgRef ++ [m]),
        sessions :=
          st'.sessions.map (fun x => if x.id = id then { x with last_accessed := now } else x) })

/-! # Theorems -/

/-- C3: the argument-repair step never raises (it is a total function):
a non-string, non-mapping input coerces to the empty object, a mapping
passes through; a string input is stripped — if empty it yields the empty
object — then strictly parsed; on parse failure exactly one brace-repair
pass (prepend `{` when missing, then append `}` when missing) is reparsed,
and on continued failure the result is the empty object.  In particular
the input `"a":1}` repairs to `{"a": 1}` and `not json at all` yields the
empty object. -/
theorem argument_repair_total_spec :
    (parseArguments .other = Json.obj []) ∧
    (∀ kvs, parseArguments (.dict kvs) = Json.obj kvs) ∧
    (∀ s, pyStrip s = "" → parseArguments (.str s) = Json.obj []) ∧
    (∀ s v, pyStrip s ≠ "" → jsonLoads (pyStrip s) = some v →
      parseArguments (.str s) = v) ∧
    (∀ s, pyStrip s ≠ "" → jsonLoads (pyStrip s) = none →
      parseArguments (.str s) = (jsonLoads (repairBraces (pyStrip s))).getD (Json.obj [])) ∧
    parseArguments (.str "\"a\":1\x7d") = Json.obj [("a", Json.num 1)] ∧
    parseArguments (.str "not json at all") = Json.obj [] := by
  refine ⟨rfl, fun kvs => rfl, ?_, ?_, ?_, by rfl, by rfl⟩
  · intro s h
    simp only [parseArguments, h]
    rfl
  · intro s v hne hv
    simp only [parseArguments, if_neg hne, hv]
  · intro s hne hnone
    simp only [parseArguments, if_neg hne, hnone]
    cases h : jsonLoads (repairBraces (pyStrip s)) <;> simp [h]

/-- The missing-function-name branch of `_execute_tool_call` performs no
collaborator invocation. -/
theorem exec_log_missing_name (mcp : String → Json → Except String Json)
    (tc : ToolCallDraft) (msgs : List Msg) (h : tc.function.name = "") :
    (execute_tool_call mcp tc msgs).2.2 = [] := by
  simp [execute_tool_call, h]

/-- A named draft is dispatched exactly once, with its repaired arguments,
whether or not the collaborator raises. -/
theorem exec_log_named (mcp : String → Json → Except String Json)
    (tc : ToolCallDraft) (msgs : List Msg) (h : tc.function.name ≠ "") :
    (execute_tool_call mcp tc msgs).2.2 =
      [(tc.function.name, parseArguments (.str tc.function.arguments))] := by
  simp only [execute_tool_call, if_neg h]
  cases mcp tc.function.name (parseArguments (.str tc.function.arguments)) <;> simp

/-- A round's tool loop invokes the collaborator exactly for the named
drafts, in order. -/
theorem runToolCalls_log (mcp : String → Json → Except String Json) :
    ∀ (tcs : List ToolCallDraft) (msgs : List Msg),
      (runToolCalls mcp tcs msgs).2.2 =
        (tcs.filter (fun t => t.function.name ≠ "")).map
          (fun t => (t.function.name, parseArguments (.str t.function.arguments)))
  | [], _ => rfl
  | tc :: rest, msgs => by
    by_cases h : tc.function.name = ""
    · simp [runToolCalls, exec_log_missing_name mcp tc msgs h, h,
        runToolCalls_log mcp rest _]
    · simp [runToolCalls, exec_log_named mcp tc msgs h, h,
        runToolCalls_log mcp rest _]

/-- C8: a finalized draft whose function name is empty is not dispatched to
the tool collaborator; a failure result carrying the explicit
missing-function-name error is produced, a tool-role message carrying that
error is appended, and the round loop still invokes the collaborator for
every sibling draft that does carry a name. -/
theorem missing_name_skips_collaborator (mcp : String → Json → Except String Json)
    (tc : ToolCallDraft) (msgs : List Msg) (h : tc.function.name = "") :
    (execute_tool_call mcp tc msgs).2.2 = [] ∧
    (execute_tool_call mcp tc msgs).1 = Json.obj [("error", Json.str missingFnMsg)] ∧
    (execute_tool_call mcp tc msgs).2.1 = msgs ++
      [{ role := "tool",
         content := some (dumpsJson true (Json.obj [("error", Json.str missingFnMsg)])) }] ∧
    ∀ (tcs : List ToolCallDraft) (msgs0 : List Msg),
      (runToolCalls mcp tcs msgs0).2.2 =
        (tcs.filter (fun t => t.function.name ≠ "")).map
          (fun t => (t.function.name, parseArguments (.str t.function.arguments))) := by
  refine ⟨exec_log_missing_name mcp tc msgs h, ?_, ?_,
    fun tcs msgs0 => runToolCalls_log mcp tcs msgs0⟩
  · simp [execute_tool_call, h]
  · simp [execute_tool_call, h]

/-- C8, instantiated: with a collaborator that always succeeds, the draft
`⟨"call_0", "function", ⟨"", "{}"⟩⟩` is not dispatched, while its named
sibling is. -/
theorem missing_name_skips_collaborator_witness :
    (execute_tool_call (fun _ _ => Except.ok Json.null)
      ⟨"call_0", "function", ⟨"", "{}"⟩⟩ []).2.2 = [] ∧
    (execute_tool_call (fun _ _ => Except.ok Json.null)
      ⟨"call_0", "function", ⟨"", "{}"⟩⟩ []).1 = Json.obj [("error", Json.str missingFnMsg)] ∧
    (runToolCalls (fun _ _ => Except.ok Json.null)
      [⟨"call_0", "function", ⟨"", "{}"⟩⟩, ⟨"call_1", "function", ⟨"t", "{}"⟩⟩] []).2.2 =
      [("t", parseArguments (.str "{}"))] := by
  have X := missing_name_skips_collaborator (fun _ _ => Except.ok Json.null)
    ⟨"call_0", "function", ⟨"", "{}"⟩⟩ [] rfl
  exact ⟨X.1, X.2.1, by rw [X.2.2.2]; rfl⟩

/-- `_execute_tool_call` appends exactly one tool-role message: on the
success path it carries `tool_call_id = some tc.id`, and on the
missing-name and exception paths it carries none (those paths construct a
plain `ChatMessage`, which has no `tool_call_id` field). -/
theorem exec_appends_one (mcp : String → Json → Except String Json)
    (tc : ToolCallDraft) (msgs : List Msg) :
    ∃ m : Msg, (execute_tool_call mcp tc msgs).2.1 = msgs ++ [m] ∧
      m.role = "tool" ∧ (m.tool_call_id = none ∨ m.tool_call_id = some tc.id) := by
  by_cases h : tc.function.name = ""
  · exact ⟨{ role := "tool",
             content := some (dumpsJson true (Json.obj [("error", Json.str missingFnMsg)])) },
           by simp [execute_tool_call, h], rfl, Or.inl rfl⟩
  · simp only [execute_tool_call, if_neg h]
    cases mcp tc.function.name (parseArguments (.str tc.function.arguments)) with
    | ok v =>
      exact ⟨{ role := "tool", content := some (toolContentOf (process_mcp_result v)),
               tool_call_id := some tc.id }, by simp, rfl, Or.inr rfl⟩
    | error e =>
      exact ⟨{ role := "tool",
               content := some (dumpsJson true (Json.obj [("error", Json.str e)])) },
             by simp, rfl, Or.inl rfl⟩

/-- The messages a round's tool loop appends are all tool-role, and each
either links to an executed draft's id or carries no `tool_call_id`. -/
theorem runToolCalls_msgs (mcp : String → Json → Except String Json) :
    ∀ (tcs : List ToolCallDraft) (msgs : List Msg),
      ∃ tail, (runToolCalls mcp tcs msgs).1 = msgs ++ tail ∧
        ∀ m ∈ tail, m.role = "tool" ∧
          (m.tool_call_id = none ∨ ∃ tc ∈ tcs, m.tool_call_id = some tc.id)
  | [], msgs => ⟨[], by simp [runToolCalls]⟩
  | tc :: rest, msgs => by
    obtain ⟨m0, hm0, hrole, hid⟩ := exec_appends_one mcp tc msgs
    obtain ⟨tail, htail, hmem⟩ := runToolCalls_msgs mcp rest (msgs ++ [m0])
    refine ⟨m0 :: tail, ?_, ?_⟩
    · simp only [runToolCalls, hm0, htail]
      simp
    · intro m hm
      rcases List.mem_cons.mp hm with rfl | hm
      · refine ⟨hrole, ?_⟩
        rcases hid with h | h
        · exact Or.inl h
        · exact Or.inr ⟨tc, List.mem_cons_self _ _, h⟩
      · obtain ⟨h1, h2⟩ := hmem m hm
        refine ⟨h1, ?_⟩
        rcases h2 with h | ⟨tc', htc', h⟩
        · exact Or.inl h
        · exact Or.inr ⟨tc', List.mem_cons_of_mem _ htc', h⟩

/-- C7 counterexample: a round executing the single draft with empty
function name (listed in the immediately preceding assistant message's
`tool_calls`) appends a tool-role message whose `tool_call_id` matches no
tool-call id of that assistant message — the missing-name path constructs
a `ChatMessage` without any `tool_call_id`. -/
theorem tool_linkage_counterexample :
    ¬ ∀ m ∈ (execute_tool_call (fun _ _ => Except.ok Json.null)
        ⟨"call_7", "function", ⟨"", "{}"⟩⟩
        [{ role := "assistant", content := some "",
           tool_calls := some [⟨"call_7", "function", ⟨"", "{}"⟩⟩] }]).2.1.drop 1,
      m.role = "tool" → ∃ tc ∈ [(⟨"call_7", "function", ⟨"", "{}"⟩⟩ : ToolCallDraft)],
        m.tool_call_id = some tc.id := by decide

/-- C7 amended: in a round executing the drafts of the immediately
preceding assistant message, every appended message is tool-role and
either carries `tool_call_id` equal to the id of an entry of that
assistant message's `tool_calls` (the success path) or carries no
`tool_call_id` at all (the missing-function-name and exception paths). -/
theorem tool_linkage_amended (mcp : String → Json → Except String Json)
    (tcs : List ToolCallDraft) (msgs : List Msg) (c : String) :
    ∃ tail, (runToolCalls mcp tcs
        (msgs ++ [{ role := "assistant", content := some c, tool_calls := some tcs }])).1 =
      (msgs ++ [{ role := "assistant", content := some c, tool_calls := some tcs }]) ++ tail ∧
      ∀ m ∈ tail, m.role = "tool" ∧
        (m.tool_call_id = none ∨ ∃ tc ∈ tcs, m.tool_call_id = some tc.id) :=
  runToolCalls_msgs mcp tcs _

/-- The pass-through streaming loop re-emits model chunks only — never an
error event. -/
theorem streamLoop_noError :
    ∀ (chunks : List Chunk) (st : StreamState), ∀ e ∈ (streamLoop st chunks).2, e.isError = false := by
  intro chunks
  induction chunks with
  | nil => intro st e he; simp [streamLoop] at he
  | cons c rest ih =>
    intro st e he
    simp only [streamLoop] at he
    split at he
    · simp at he; subst he; rfl
    · rcases List.mem_cons.mp he with rfl | he
      · rfl
      · exact ih _ e he

/-- The tool-execution loop emits progress and result displays only —
never an error event. -/
theorem runToolCalls_noError (mcp : String → Json → Except String Json) :
    ∀ (tcs : List ToolCallDraft) (msgs : List Msg),
      ∀ e ∈ (runToolCalls mcp tcs msgs).2.1, e.isError = false
  | [], msgs => by intro e he; simp [runToolCalls] at he
  | tc :: rest, msgs => by
    intro e he
    simp only [runToolCalls, List.mem_append, List.mem_cons, List.not_mem_nil,
      or_false] at he
    rcases he with (rfl | he) | he
    · rfl
    · split at he
      · rcases List.mem_singleton.mp he with rfl; rfl
      · simp at he
    · exact runToolCalls_noError mcp rest _ e he

/-- `_handle_interactive_chat` never emits an error event, whatever the
collaborators do (the terminal error fragment belongs to the surrounding
`chat_completions` exception handler). -/
theorem chat_noError (llm : List Msg → List Chunk) (mcp : String → Json → Except String Json) :
    ∀ (fuel : Nat) (msgs : List Msg) (fresh : Nat),
      ∀ e ∈ (handle_interactive_chat llm mcp fuel msgs fresh).2.2, e.isError = false
  | 0, msgs, fresh => by intro e he; simp [handle_interactive_chat] at he
  | fuel + 1, msgs, fresh => by
    intro e he
    simp only [handle_interactive_chat] at he
    split at he
    · exact streamLoop_noError _ _ e he
    · simp only [List.append_assoc, List.mem_append, List.mem_cons, List.not_mem_nil,
        or_false] at he
      rcases he with he | (rfl | rfl) | he | rfl | he
      · exact streamLoop_noError _ _ e he
      · rfl
      · rfl
      · exact runToolCalls_noError mcp _ _ e he
      · rfl
      · exact chat_noError llm mcp fuel _ _ e he

/-- When every stream ends in the tool-call terminal state with a
non-empty draft list, the round loop uses its whole budget: it enters
exactly `fuel` rounds. -/
theorem chat_rounds_eq (llm : List Msg → List Chunk) (mcp : String → Json → Except String Json)
    (H : ∀ (msgs : List Msg) (fresh : Nat),
      (streamLoop (initStream fresh) (llm msgs)).1.finish = some "tool_calls" ∧
      (streamLoop (initStream fresh) (llm msgs)).1.tool_calls ≠ []) :
    ∀ (fuel : Nat) (msgs : List Msg) (fresh : Nat),
      (handle_interactive_chat llm mcp fuel msgs fresh).1 = fuel
  | 0, _, _ => rfl
  | fuel + 1, msgs, fresh => by
    obtain ⟨h1, h2⟩ := H msgs fresh
    simp only [handle_interactive_chat]
    rw [if_neg (by simp [h1, h2])]
    simp [chat_rounds_eq llm mcp H fuel]

/-- C1: if every round's fragment stream reaches `finish_reason =
"tool_calls"` with a non-empty draft list, `_handle_interactive_chat`
executes exactly `max_rounds` (5) rounds, terminates normally, and never
emits an error event. -/
theorem round_bound (llm : List Msg → List Chunk) (mcp : String → Json → Except String Json)
    (H : ∀ (msgs : List Msg) (fresh : Nat),
      (streamLoop (initStream fresh) (llm msgs)).1.finish = some "tool_calls" ∧
      (streamLoop (initStream fresh) (llm msgs)).1.tool_calls ≠ [])
    (msgs0 : List Msg) (fresh0 : Nat) :
    (handle_interactive_chat llm mcp max_rounds msgs0 fresh0).1 = max_rounds ∧
    ∀ e ∈ (handle_interactive_chat llm mcp max_rounds msgs0 fresh0).2.2, e.isError = false :=
  ⟨chat_rounds_eq llm mcp H max_rounds msgs0 fresh0,
   chat_noError llm mcp max_rounds msgs0 fresh0⟩

/-- C1, instantiated: a model collaborator that always answers with one
chunk carrying a tool-call delta and `finish_reason = "tool_calls"` drives
the loop through exactly five rounds with no error event. -/
theorem round_bound_witness :
    (handle_interactive_chat
        (fun _ => [⟨none, [⟨some 0, some "id1", some ⟨some "f", some "{}"⟩⟩], some "tool_calls"⟩])
        (fun _ _ => Except.ok Json.null) max_rounds [] 0).1 = max_rounds ∧
    ∀ e ∈ (handle_interactive_chat
        (fun _ => [⟨none, [⟨some 0, some "id1", some ⟨some "f", some "{}"⟩⟩], some "tool_calls"⟩])
        (fun _ _ => Except.ok Json.null) max_rounds [] 0).2.2, e.isError = false :=
  round_bound
    (fun _ => [⟨none, [⟨some 0, some "id1", some ⟨some "f", some "{}"⟩⟩], some "tool_calls"⟩])
    (fun _ _ => Except.ok Json.null)
    (fun msgs fresh => ⟨rfl, by simp [streamLoop, process_chunk,
      collect_tool_call, padDrafts, padCount, updateDraft, truthyStr, initStream]⟩) [] 0

def deltaIdx (d : ToolCallDelta) : Nat := d.index.getD 0

def maxIdxLen (ds : List ToolCallDelta) : Nat :=
  ds.foldl (fun m d => max m (deltaIdx d + 1)) 0

def deltaArgChunk (d : ToolCallDelta) : Option String :=
  match d.function with
  | some f => if truthyStr f.arguments then f.arguments else none
  | none => none

def deltaNameWrite (d : ToolCallDelta) : Option String :=
  match d.function with
  | some f => if truthyStr f.name then f.name else none
  | none => none

def deltaIdWrite (d : ToolCallDelta) : Option String :=
  if truthyStr d.id then d.id else none

def argChunksAt (i : Nat) (ds : List ToolCallDelta) : List String :=
  ds.filterMap (fun d => if deltaIdx d = i then deltaArgChunk d else none)

def nameWritesAt (i : Nat) (ds : List ToolCallDelta) : List String :=
  ds.filterMap (fun d => if deltaIdx d = i then deltaNameWrite d else none)

def idWritesAt (i : Nat) (ds : List ToolCallDelta) : List String :=
  ds.filterMap (fun d => if deltaIdx d = i then deltaIdWrite d else none)

theorem updateDraft_type (d : ToolCallDelta) (t : ToolCallDraft) :
    (updateDraft d t).type = t.type := by
  rcases hf : d.function with _ | f <;> simp only [updateDraft, hf]
  · split <;> rfl
  · split <;> split <;> split <;> rfl

theorem updateDraft_args (d : ToolCallDelta) (t : ToolCallDraft) :
    (updateDraft d t).function.arguments =
      t.function.arguments ++ (deltaArgChunk d).getD "" := by
  rcases hf : d.function with _ | f <;> simp only [updateDraft, deltaArgChunk, hf]
  · split <;> simp [String.append_empty]
  · by_cases hA : truthyStr f.arguments = true
    · simp only [hA, if_true]
      split <;> split <;> simp
    · simp only [hA, if_false, Bool.false_eq_true]
      split <;> split <;> simp [String.append_empty]

theorem updateDraft_name (d : ToolCallDelta) (t : ToolCallDraft) :
    (updateDraft d t).function.name = (deltaNameWrite d).getD t.function.name := by
  rcases hf : d.function with _ | f <;> simp only [updateDraft, deltaNameWrite, hf]
  · split <;> rfl
  · by_cases hN : truthyStr f.name = true
    · simp only [hN, if_true]
      rcases hn : f.name with _ | a
    -- truthyStr none = false, contradiction
      · simp [truthyStr, hn] at hN
      · split <;> split <;> simp
    · simp only [hN, if_false, Bool.false_eq_true]
      split <;> split <;> simp

theorem updateDraft_id (d : ToolCallDelta) (t : ToolCallDraft) :
    (updateDraft d t).id = (deltaIdWrite d).getD t.id := by
  by_cases hI : truthyStr d.id = true
  · rcases hi : d.id with _ | a
    · simp [truthyStr, hi] at hI
    · rw [hi] at hI
      simp only [updateDraft, deltaIdWrite, hi, hI, if_true]
      rcases hfn : d.function with _ | f <;> simp only [hfn]
      · simp
      · split <;> split <;> simp
  · simp only [updateDraft, deltaIdWrite, if_neg hI]
    rcases hfn : d.function with _ | f <;> simp only [hfn]
    · simp
    · split <;> split <;> simp

theorem foldl_strAppend (l : List String) : ∀ (s : String),
    l.foldl (fun r c => r ++ c) s = s ++ l.foldl (fun r c => r ++ c) "" := by
  induction l with
  | nil => intro s; simp
  | cons a l ih =>
    intro s
    simp only [List.foldl_cons]
    rw [ih (s ++ a), ih ("" ++ a)]
    simp [String.append_assoc]

theorem stringJoin_cons (a : String) (l : List String) :
    String.join (a :: l) = a ++ String.join l := by
  simp only [String.join, List.foldl_cons]
  rw [foldl_strAppend]
  simp

theorem padCount_len : ∀ (n : Nat) (tcs : List ToolCallDraft) (fresh : Nat),
    (padCount tcs fresh n).1.length = tcs.length + n
  | 0, tcs, f => by simp [padCount]
  | n+1, tcs, f => by
    rw [padCount, padCount_len n]
    simp
    omega

theorem padCount_get_lt : ∀ (n : Nat) (tcs : List ToolCallDraft) (fresh i : Nat),
    i < tcs.length → (padCount tcs fresh n).1.get? i = tcs.get? i
  | 0, _, _, _, _ => rfl
  | n+1, tcs, f, i, h => by
    rw [padCount, padCount_get_lt n _ _ i (by simp; omega)]
    exact List.get?_append h

theorem padCount_get_ge : ∀ (n : Nat) (tcs : List ToolCallDraft) (fresh i : Nat),
    tcs.length ≤ i → i < tcs.length + n →
    ∃ k, (padCount tcs fresh n).1.get? i = some (placeholderDraft k)
  | 0, _, _, i, h1, h2 => absurd h2 (by omega)
  | n+1, tcs, f, i, h1, h2 => by
    by_cases h : i = tcs.length
    · subst h
      refine ⟨f, ?_⟩
      rw [padCount, padCount_get_lt n _ _ _ (by simp)]
      exact List.get?_concat_length tcs _
    · exact padCount_get_ge n (tcs ++ [placeholderDraft f]) (f+1) i
        (by simp; omega) (by simp; omega)

theorem padDrafts_len (tcs : List ToolCallDraft) (f idx : Nat) :
    (padDrafts tcs f idx).1.length = max tcs.length (idx + 1) := by
  rw [padDrafts, padCount_len]
  omega

theorem collect_len (tcs : List ToolCallDraft) (f : Nat) (d : ToolCallDelta) :
    (collect_tool_call tcs f d).1.length = max tcs.length (deltaIdx d + 1) := by
  simp [collect_tool_call, List.length_set, padDrafts_len, deltaIdx]

theorem collectAll_len_mono : ∀ (ds : List ToolCallDelta) (tcs : List ToolCallDraft) (f : Nat),
    tcs.length ≤ (collectAll tcs f ds).1.length
  | [], _, _ => le_refl _
  | d :: ds, tcs, f => by
    rw [collectAll]
    refine le_trans ?_ (collectAll_len_mono ds _ _)
    rw [collect_len]
    omega

theorem get?_lt_length {l : List ToolCallDraft} {i : Nat} {a : ToolCallDraft}
    (h : l.get? i = some a) : i < l.length := by
  by_contra hc
  rw [List.get?_eq_none.mpr (by omega)] at h
  cases h

theorem collect_get?_ne_lt (tcs : List ToolCallDraft) (f : Nat) (d : ToolCallDelta) (i : Nat)
    (hne : i ≠ deltaIdx d) (hlt : i < tcs.length) :
    (collect_tool_call tcs f d).1.get? i = tcs.get? i := by
  simp only [collect_tool_call]
  rw [List.get?_set_ne _ _ (fun h => hne (by rw [← h]; rfl))]
  rw [padDrafts, padCount_get_lt _ _ _ _ hlt]

theorem collect_get?_ne_ge (tcs : List ToolCallDraft) (f : Nat) (d : ToolCallDelta) (i : Nat)
    (hne : i ≠ deltaIdx d) (hge : tcs.length ≤ i) (hlt : i < max tcs.length (deltaIdx d + 1)) :
    ∃ k, (collect_tool_call tcs f d).1.get? i = some (placeholderDraft k) := by
  obtain ⟨k, hk⟩ := padCount_get_ge (deltaIdx d + 1 - tcs.length) tcs f i hge (by omega)
  refine ⟨k, ?_⟩
  simp only [collect_tool_call]
  rw [List.get?_set_ne _ _ (fun h => hne (by rw [← h]; rfl))]
  rw [padDrafts]
  exact hk

theorem collect_get?_idx_of_lt (tcs : List ToolCallDraft) (f : Nat) (d : ToolCallDelta)
    (t : ToolCallDraft) (ht : tcs.get? (deltaIdx d) = some t) :
    (collect_tool_call tcs f d).1.get? (deltaIdx d) = some (updateDraft d t) := by
  have hlt : deltaIdx d < tcs.length := get?_lt_length ht
  simp only [deltaIdx] at ht hlt ⊢
  simp only [collect_tool_call]
  have hpad : (padDrafts tcs f (d.index.getD 0)).1.get? (d.index.getD 0) = some t := by
    rw [padDrafts, padCount_get_lt _ _ _ _ hlt]
    exact ht
  rw [List.get?_set_eq_of_lt]
  · rw [List.getD, hpad]
    rfl
  · exact get?_lt_length hpad

theorem collect_get?_idx_of_ge (tcs : List ToolCallDraft) (f : Nat) (d : ToolCallDelta)
    (hge : tcs.length ≤ deltaIdx d) :
    ∃ k, (collect_tool_call tcs f d).1.get? (deltaIdx d) =
      some (updateDraft d (placeholderDraft k)) := by
  obtain ⟨k, hk⟩ := padCount_get_ge (deltaIdx d + 1 - tcs.length) tcs f (deltaIdx d) hge (by omega)
  refine ⟨k, ?_⟩
  simp only [deltaIdx] at hk ⊢
  simp only [collect_tool_call]
  have hpad : (padDrafts tcs f (d.index.getD 0)).1.get? (d.index.getD 0) =
      some (placeholderDraft k) := by
    rw [padDrafts]; exact hk
  rw [List.get?_set_eq_of_lt]
  · rw [List.getD, hpad]
    rfl
  · exact get?_lt_length hpad

theorem collect_get?_none (tcs : List ToolCallDraft) (f : Nat) (d : ToolCallDelta) (i : Nat)
    (h : max tcs.length (deltaIdx d + 1) ≤ i) :
    (collect_tool_call tcs f d).1.get? i = none := by
  rw [List.get?_eq_none.mpr]
  rw [collect_len]
  exact h

theorem stringJoin_nil : String.join ([] : List String) = "" := rfl

theorem collectAll_args : ∀ (ds : List ToolCallDelta) (tcs : List ToolCallDraft) (f i : Nat),
    ((collectAll tcs f ds).1.get? i).map (fun t => t.function.arguments) =
      match tcs.get? i with
      | some t => some (t.function.arguments ++ String.join (argChunksAt i ds))
      | none =>
        if i < (collectAll tcs f ds).1.length then some (String.join (argChunksAt i ds))
        else none
  | [], tcs, f, i => by
    cases h : tcs.get? i with
    | some t =>
      simp only [collectAll, h, Option.map_some']
      simp [argChunksAt, stringJoin_nil, String.append_empty]
    | none =>
      have hge : tcs.length ≤ i := List.get?_eq_none.mp h
      simp only [collectAll, h]
      rw [if_neg (by omega)]
      simp [h]
  | d :: ds, tcs, f, i => by
    simp only [collectAll]
    rw [collectAll_args ds (collect_tool_call tcs f d).1 (collect_tool_call tcs f d).2 i]
    by_cases hidx : i = deltaIdx d
    · rw [hidx]
      cases ht : tcs.get? (deltaIdx d) with
      | some t =>
        simp only [collect_get?_idx_of_lt tcs f d t ht, updateDraft_args]
        simp only [argChunksAt, List.filterMap_cons, if_pos rfl]
        cases hc : deltaArgChunk d with
        | some c => simp [stringJoin_cons, String.append_assoc, argChunksAt]
        | none => simp [argChunksAt]
      | none =>
        have hge : tcs.length ≤ deltaIdx d := List.get?_eq_none.mp ht
        obtain ⟨k, hk⟩ := collect_get?_idx_of_ge tcs f d hge
        simp only [hk, updateDraft_args]
        rw [if_pos]
        · simp only [argChunksAt, List.filterMap_cons, if_pos rfl]
          cases hc : deltaArgChunk d with
          | some c => simp [stringJoin_cons, placeholderDraft, argChunksAt]
          | none => simp [placeholderDraft, argChunksAt]
        · have h1 : deltaIdx d < (collect_tool_call tcs f d).1.length := by
            rw [collect_len]; omega
          have h2 := collectAll_len_mono ds (collect_tool_call tcs f d).1
            (collect_tool_call tcs f d).2
          omega
    · have hcond : (deltaIdx d = i) = False := by simp [Ne.symm hidx]
      cases ht : tcs.get? i with
      | some t =>
        simp only [collect_get?_ne_lt tcs f d i hidx (get?_lt_length ht), ht]
        simp only [argChunksAt, List.filterMap_cons, hcond, if_false]
      | none =>
        have hge : tcs.length ≤ i := List.get?_eq_none.mp ht
        by_cases hlt : i < max tcs.length (deltaIdx d + 1)
        · obtain ⟨k, hk⟩ := collect_get?_ne_ge tcs f d i hidx hge hlt
          simp only [hk]
          rw [if_pos]
          · simp only [argChunksAt, List.filterMap_cons, hcond, if_false]
            simp [placeholderDraft]
          · have h1 : i < (collect_tool_call tcs f d).1.length := by
              rw [collect_len]; exact hlt
            have h2 := collectAll_len_mono ds (collect_tool_call tcs f d).1
              (collect_tool_call tcs f d).2
            omega
        · simp only [collect_get?_none tcs f d i (by omega)]
          simp only [argChunksAt, List.filterMap_cons, hcond, if_false]

theorem collectAll_name : ∀ (ds : List ToolCallDelta) (tcs : List ToolCallDraft) (f i : Nat),
    ((collectAll tcs f ds).1.get? i).map (fun t => t.function.name) =
      match tcs.get? i with
      | some t => some ((nameWritesAt i ds).getLastD t.function.name)
      | none =>
        if i < (collectAll tcs f ds).1.length then some ((nameWritesAt i ds).getLastD "")
        else none
  | [], tcs, f, i => by
    cases h : tcs.get? i with
    | some t =>
      simp only [collectAll, h, Option.map_some']
      simp [nameWritesAt]
    | none =>
      have hge : tcs.length ≤ i := List.get?_eq_none.mp h
      simp only [collectAll, h]
      rw [if_neg (by omega)]
      simp [h]
  | d :: ds, tcs, f, i => by
    simp only [collectAll]
    rw [collectAll_name ds (collect_tool_call tcs f d).1 (collect_tool_call tcs f d).2 i]
    by_cases hidx : i = deltaIdx d
    · rw [hidx]
      cases ht : tcs.get? (deltaIdx d) with
      | some t =>
        simp only [collect_get?_idx_of_lt tcs f d t ht, updateDraft_name]
        simp only [nameWritesAt, List.filterMap_cons, if_pos rfl]
        cases hc : deltaNameWrite d with
        | some c => simp only [hc, if_true, Option.getD_some, List.getLastD_cons]
        | none => simp only [hc, if_true, Option.getD_none]
      | none =>
        have hge : tcs.length ≤ deltaIdx d := List.get?_eq_none.mp ht
        obtain ⟨k, hk⟩ := collect_get?_idx_of_ge tcs f d hge
        simp only [hk, updateDraft_name]
        rw [if_pos]
        · simp only [nameWritesAt, List.filterMap_cons, if_pos rfl]
          cases hc : deltaNameWrite d with
          | some c => simp only [hc, if_true, Option.getD_some, List.getLastD_cons, placeholderDraft]
          | none => simp only [hc, if_true, Option.getD_none, placeholderDraft]
        · have h1 : deltaIdx d < (collect_tool_call tcs f d).1.length := by
            rw [collect_len]; omega
          have h2 := collectAll_len_mono ds (collect_tool_call tcs f d).1
            (collect_tool_call tcs f d).2
          omega
    · have hcond : (deltaIdx d = i) = False := by simp [Ne.symm hidx]
      cases ht : tcs.get? i with
      | some t =>
        simp only [collect_get?_ne_lt tcs f d i hidx (get?_lt_length ht), ht]
        simp only [nameWritesAt, List.filterMap_cons, hcond, if_false]
      | none =>
        have hge : tcs.length ≤ i := List.get?_eq_none.mp ht
        by_cases hlt : i < max tcs.length (deltaIdx d + 1)
        · obtain ⟨k, hk⟩ := collect_get?_ne_ge tcs f d i hidx hge hlt
          simp only [hk]
          rw [if_pos]
          · simp only [nameWritesAt, List.filterMap_cons, hcond, if_false]
            simp [placeholderDraft]
          · have h1 : i < (collect_tool_call tcs f d).1.length := by
              rw [collect_len]; exact hlt
            have h2 := collectAll_len_mono ds (collect_tool_call tcs f d).1
              (collect_tool_call tcs f d).2
            omega
        · simp only [collect_get?_none tcs f d i (by omega)]
          simp only [nameWritesAt, List.filterMap_cons, hcond, if_false]

theorem collectAll_id : ∀ (ds : List ToolCallDelta) (tcs : List ToolCallDraft) (f i : Nat),
    (∀ t, tcs.get? i = some t →
      ((collectAll tcs f ds).1.get? i).map (fun x => x.id) =
        some ((idWritesAt i ds).getLastD t.id)) ∧
    (tcs.get? i = none → i < (collectAll tcs f ds).1.length →
      ∃ k : Nat, ((collectAll tcs f ds).1.get? i).map (fun x => x.id) =
        some ((idWritesAt i ds).getLastD ("call_" ++ toString k)))
  | [], tcs, f, i => by
    constructor
    · intro t ht
      simp only [collectAll, ht, Option.map_some']
      simp [idWritesAt]
    · intro ht hlen
      have hge : tcs.length ≤ i := List.get?_eq_none.mp ht
      simp only [collectAll] at hlen
      omega
  | d :: ds, tcs, f, i => by
    constructor
    · intro t ht
      simp only [collectAll]
      by_cases hidx : i = deltaIdx d
      · rw [hidx] at ht ⊢
        have hcol := collect_get?_idx_of_lt tcs f d t ht
        have IH := (collectAll_id ds (collect_tool_call tcs f d).1
          (collect_tool_call tcs f d).2 (deltaIdx d)).1 (updateDraft d t) hcol
        rw [IH, updateDraft_id]
        simp only [idWritesAt, List.filterMap_cons, if_pos rfl]
        cases hc : deltaIdWrite d with
        | some c => simp only [hc, if_true, Option.getD_some, List.getLastD_cons]
        | none => simp only [hc, if_true, Option.getD_none]
      · have hcol := collect_get?_ne_lt tcs f d i hidx (get?_lt_length ht)
        have IH := (collectAll_id ds (collect_tool_call tcs f d).1
          (collect_tool_call tcs f d).2 i).1 t (by rw [hcol]; exact ht)
        rw [IH]
        have hcond : (deltaIdx d = i) = False := by simp [Ne.symm hidx]
        simp only [idWritesAt, List.filterMap_cons, hcond, if_false]
    · intro ht hlen
      simp only [collectAll] at hlen ⊢
      have hge : tcs.length ≤ i := List.get?_eq_none.mp ht
      by_cases hidx : i = deltaIdx d
      · rw [hidx] at ht hge ⊢
        obtain ⟨k, hcol⟩ := collect_get?_idx_of_ge tcs f d hge
        have IH := (collectAll_id ds (collect_tool_call tcs f d).1
          (collect_tool_call tcs f d).2 (deltaIdx d)).1 _ hcol
        rw [IH, updateDraft_id]
        simp only [idWritesAt, List.filterMap_cons, if_pos rfl]
        cases hc : deltaIdWrite d with
        | some c =>
          exact ⟨k, by simp only [hc, if_true, Option.getD_some, List.getLastD_cons,
            placeholderDraft]⟩
        | none =>
          exact ⟨k, by simp only [hc, if_true, Option.getD_none, placeholderDraft]⟩
      · have hcond : (deltaIdx d = i) = False := by simp [Ne.symm hidx]
        by_cases hlt : i < max tcs.length (deltaIdx d + 1)
        · obtain ⟨k, hcol⟩ := collect_get?_ne_ge tcs f d i hidx hge hlt
          have IH := (collectAll_id ds (collect_tool_call tcs f d).1
            (collect_tool_call tcs f d).2 i).1 _ hcol
          rw [IH]
          refine ⟨k, ?_⟩
          simp only [idWritesAt, List.filterMap_cons, hcond, if_false, placeholderDraft]
        · have hnone : (collect_tool_call tcs f d).1.get? i = none :=
            collect_get?_none tcs f d i (by omega)
          obtain ⟨k, IH⟩ := (collectAll_id ds (collect_tool_call tcs f d).1
            (collect_tool_call tcs f d).2 i).2 hnone hlen
          rw [IH]
          refine ⟨k, ?_⟩
          simp only [idWritesAt, List.filterMap_cons, hcond, if_false]

theorem padCount_mem : ∀ (n : Nat) (tcs : List ToolCallDraft) (f : Nat) (x : ToolCallDraft),
    x ∈ (padCount tcs f n).1 → x ∈ tcs ∨ ∃ k, x = placeholderDraft k
  | 0, tcs, f, x => fun h => Or.inl h
  | n+1, tcs, f, x => by
    intro h
    rcases padCount_mem n (tcs ++ [placeholderDraft f]) (f+1) x h with h' | h'
    · rcases List.mem_append.mp h' with h'' | h''
      · exact Or.inl h''
      · exact Or.inr ⟨f, List.mem_singleton.mp h''⟩
    · exact Or.inr h'

theorem collect_type (tcs : List ToolCallDraft) (f : Nat) (d : ToolCallDelta)
    (h : ∀ x ∈ tcs, x.type = "function") :
    ∀ x ∈ (collect_tool_call tcs f d).1, x.type = "function" := by
  intro x hx
  simp only [collect_tool_call] at hx
  rcases List.mem_or_eq_of_mem_set hx with hx' | hx'
  · rcases padCount_mem _ _ _ _ (by rw [padDrafts] at hx' ; exact hx') with h' | ⟨k, rfl⟩
    · exact h x h'
    · rfl
  · subst hx'
    rw [updateDraft_type]
    rcases hb : (padDrafts tcs f (d.index.getD 0)).1.get? (d.index.getD 0) with _ | b
    · simp only [List.getD]
      rw [hb]
      rfl
    · have hmem : b ∈ (padDrafts tcs f (d.index.getD 0)).1 := List.get?_mem hb
      rcases padCount_mem _ _ _ _ (by rw [padDrafts] at hmem; exact hmem) with h' | ⟨k, rfl⟩
      · simp only [List.getD, hb, Option.getD_some]
        exact h b h'
      · simp only [List.getD, hb, Option.getD_some]
        rfl

theorem collectAll_type : ∀ (ds : List ToolCallDelta) (tcs : List ToolCallDraft) (f : Nat),
    (∀ x ∈ tcs, x.type = "function") →
    ∀ x ∈ (collectAll tcs f ds).1, x.type = "function"
  | [], tcs, f, h => h
  | d :: ds, tcs, f, h => by
    simp only [collectAll]
    exact collectAll_type ds _ _ (collect_type tcs f d h)

theorem collectAll_len : ∀ (ds : List ToolCallDelta) (tcs : List ToolCallDraft) (f : Nat),
    (collectAll tcs f ds).1.length = ds.foldl (fun m d => max m (deltaIdx d + 1)) tcs.length
  | [], _, _ => rfl
  | d :: ds, tcs, f => by
    simp only [collectAll, List.foldl_cons]
    rw [collectAll_len ds, collect_len]

/-- C2: folding any delta sequence (also out-of-order or gapped indices)
from the empty draft list yields one draft per index `0 ≤ i <` (largest
index seen `+ 1`), with gaps filled by `call_<k>` placeholders: each
position `i` has type `"function"`, arguments equal to the concatenation
(in arrival order, never replaced) of the non-empty argument chunks aimed
at `i`, name equal to the last non-empty name write aimed at `i` (else
empty), and id equal to the last non-empty id write aimed at `i` (else a
`call_<k>` placeholder id). -/
theorem delta_accumulator_spec (ds : List ToolCallDelta) :
    (collectAll [] 0 ds).1.length = maxIdxLen ds ∧
    ∀ i t, (collectAll [] 0 ds).1.get? i = some t →
      t.type = "function" ∧
      t.function.arguments = String.join (argChunksAt i ds) ∧
      t.function.name = (nameWritesAt i ds).getLastD "" ∧
      ∃ k : Nat, t.id = (idWritesAt i ds).getLastD ("call_" ++ toString k) := by
  constructor
  · rw [collectAll_len]
    rfl
  · intro i t ht
    have hnil : ([] : List ToolCallDraft).get? i = none := by cases i <;> rfl
    have hlen : i < (collectAll [] 0 ds).1.length := get?_lt_length ht
    have harg := collectAll_args ds [] 0 i
    have hname := collectAll_name ds [] 0 i
    obtain ⟨k, hid⟩ := (collectAll_id ds [] 0 i).2 hnil hlen
    rw [ht] at harg hname hid
    simp only [hnil, if_pos hlen, Option.map_some', Option.some.injEq] at harg hname hid
    exact ⟨collectAll_type ds [] 0 (by simp) t (List.get?_mem ht), harg, hname, ⟨k, hid⟩⟩

/-! Session-store helper lemmas -/

theorem delete_sessions_eq (i : String) (st : SMState) :
    (delete_session i st).2.sessions = st.sessions.filter (fun s => ¬ s.id = i) := by
  simp only [delete_session]
  split
  · rfl
  · next h =>
    rw [List.filter_eq_self.mpr]
    intro x hx
    simp only [List.any_eq_true, not_exists, not_and] at h
    simp [h x hx]

theorem delete_keeps_config (i : String) (st : SMState) :
    (delete_session i st).2.timeout = st.timeout ∧
    (delete_session i st).2.max_active = st.max_active := by
  simp only [delete_session]
  split <;> exact ⟨rfl, rfl⟩

theorem foldl_delete_sessions : ∀ (ids : List String) (st : SMState),
    (ids.foldl (fun acc i => (delete_session i acc).2) st).sessions =
      st.sessions.filter (fun s => ¬ ids.contains s.id) ∧
    (ids.foldl (fun acc i => (delete_session i acc).2) st).timeout = st.timeout ∧
    (ids.foldl (fun acc i => (delete_session i acc).2) st).max_active = st.max_active
  | [], st => by simp
  | i :: ids, st => by
    simp only [List.foldl_cons]
    obtain ⟨h1, h2, h3⟩ := foldl_delete_sessions ids (delete_session i st).2
    refine ⟨?_, by rw [h2, (delete_keeps_config i st).1],
      by rw [h3, (delete_keeps_config i st).2]⟩
    rw [h1, delete_sessions_eq, List.filter_filter]
    apply List.filter_congr
    intro x hx
    simp [List.contains_cons, not_or, Bool.and_comm]

theorem cleanup_sessions_spec (now : Nat) (st : SMState)
    (hnodup : (st.sessions.map (fun s => s.id)).Nodup) :
    (cleanup_sessions now st).2.sessions =
      st.sessions.filter (fun s => ¬ is_session_expired st.timeout now s) ∧
    (cleanup_sessions now st).1 =
      (st.sessions.filter (fun s => is_session_expired st.timeout now s)).length ∧
    (cleanup_sessions now st).2.timeout = st.timeout ∧
    (cleanup_sessions now st).2.max_active = st.max_active := by
  simp only [cleanup_sessions]
  obtain ⟨h1, h2, h3⟩ := foldl_delete_sessions
    ((st.sessions.filter (is_session_expired st.timeout now)).map (fun s => s.id)) st
  refine ⟨?_, by simp, h2, h3⟩
  rw [h1]
  apply List.filter_congr
  intro x hx
  have key : (((st.sessions.filter (is_session_expired st.timeout now)).map
      (fun s => s.id)).contains x.id) = is_session_expired st.timeout now x := by
    by_cases hexp : is_session_expired st.timeout now x = true
    · rw [hexp]
      simp only [List.contains]
      exact List.elem_iff.mpr (List.mem_map_of_mem _ (List.mem_filter.mpr ⟨hx, hexp⟩))
    · have hexp' : is_session_expired st.timeout now x = false := by
        simpa using hexp
      rw [hexp']
      simp only [List.contains]
      rw [Bool.eq_false_iff, Ne, List.elem_iff]
      intro hmem
      obtain ⟨y, hy, hid⟩ := List.mem_map.mp hmem
      obtain ⟨hy', hyexp⟩ := List.mem_filter.mp hy
      have heq : y = x := List.inj_on_of_nodup_map hnodup hy' hx hid
      subst heq
      exact absurd hyexp hexp
  rw [← key]

theorem setSession_map_id (l : List PySession) (id : String)
    (f : PySession → PySession) (hf : ∀ x, (f x).id = x.id) :
    (setSession l id f).map (fun s => s.id) = l.map (fun s => s.id) := by
  simp only [setSession, List.map_map]
  apply List.map_congr_left
  intro x _
  by_cases h : x.id = id <;> simp [h, hf]

theorem lookupSession_setSession (l : List PySession) (id : String)
    (f : PySession → PySession) (hf : ∀ x, (f x).id = x.id) :
    lookupSession (setSession l id f) id = (lookupSession l id).map f := by
  induction l with
  | nil => rfl
  | cons a l ih =>
    simp only [lookupSession, setSession, List.map_cons] at *
    by_cases h : a.id = id
    · rw [if_pos h, List.find?_cons_of_pos _ (by simp [hf, h]),
        List.find?_cons_of_pos _ (by simp [h])]
      rfl
    · rw [if_neg h, List.find?_cons_of_neg _ (by simp [h]),
        List.find?_cons_of_neg _ (by simp [h])]
      exact ih

theorem expired_of_time (T now : Nat) (s : PySession) (h : s.last_accessed + T < now) :
    is_session_expired T now s = true := by
  simp only [is_session_expired]
  split <;> simp [h]

/-- C5: a session is expired iff it is inactive or `now > last_accessed +
timeout`; a session unaccessed for longer than the timeout gives
`get_session = None` (with the side effect of marking it inactive), and the
next `cleanup_sessions` hard-deletes every expired session — the stale one
included — returning the number removed. -/
theorem session_expiry_spec (st : SMState) (id : String) (s : PySession) (now : Nat)
    (hnodup : (st.sessions.map (fun x => x.id)).Nodup)
    (hfind : lookupSession st.sessions id = some s)
    (htime : s.last_accessed + st.timeout < now) :
    (∀ (T N : Nat) (x : PySession),
      is_session_expired T N x = true ↔ (x.active = false ∨ x.last_accessed + T < N)) ∧
    (get_session now id st).1 = none ∧
    (get_session now id st).2.sessions =
      setSession st.sessions id (fun x => { x with active := false }) ∧
    (cleanup_sessions now (get_session now id st).2).2.sessions =
      (get_session now id st).2.sessions.filter
        (fun x => ¬ is_session_expired st.timeout now x) ∧
    (cleanup_sessions now (get_session now id st).2).1 =
      ((get_session now id st).2.sessions.filter
        (fun x => is_session_expired st.timeout now x)).length ∧
    lookupSession (cleanup_sessions now (get_session now id st).2).2.sessions id = none := by
  have hexp : is_session_expired st.timeout now s = true := expired_of_time _ _ _ htime
  have hget1 : (get_session now id st).1 = none := by
    simp [get_session, hfind, hexp]
  have hget2 : (get_session now id st).2.sessions =
      setSession st.sessions id (fun x => { x with active := false }) := by
    simp [get_session, hfind, hexp]
  have hgetT : (get_session now id st).2.timeout = st.timeout := by
    simp [get_session, hfind, hexp]
  have hnodup2 : ((get_session now id st).2.sessions.map (fun x => x.id)).Nodup := by
    rw [hget2, setSession_map_id st.sessions id
      (fun x => { x with active := false }) (fun x => rfl)]
    exact hnodup
  have hcl := cleanup_sessions_spec now (get_session now id st).2 hnodup2
  refine ⟨?_, hget1, hget2, ?_, ?_, ?_⟩
  · intro T N x
    simp only [is_session_expired]
    split
    · next h => simp [Bool.not_eq_true] at h; simp [h]
    · next h => simp [Bool.not_eq_true] at h; simp [h, Nat.lt_iff_add_one_le]
  · rw [hcl.1, hgetT]
  · rw [hcl.2.1, hgetT]
  · rw [hcl.1]
    simp only [lookupSession]
    rw [List.find?_eq_none]
    intro x hx
    obtain ⟨hx1, hx2⟩ := List.mem_filter.mp hx
    rw [hget2] at hx1
    obtain ⟨y, hy, hgy⟩ := List.mem_map.mp hx1
    intro hxid
    simp only [decide_eq_true_eq] at hxid
    by_cases h : y.id = id
    · rw [if_pos h] at hgy
      subst hgy
      simp [is_session_expired, hgetT] at hx2
    · rw [if_neg h] at hgy
      subst hgy
      exact h hxid

/-- C5, instantiated: with `timeout = 10`, the session last accessed at 0
is gone from `get` at instant 11 and absent from the store after cleanup. -/
theorem session_expiry_spec_witness :
    (get_session 11 "a" ⟨[⟨"a", 0, 0, [], [], true⟩], 10, 100⟩).1 = none ∧
    lookupSession (cleanup_sessions 11
      (get_session 11 "a" ⟨[⟨"a", 0, 0, [], [], true⟩], 10, 100⟩).2).2.sessions "a" = none := by
  have X := session_expiry_spec ⟨[⟨"a", 0, 0, [], [], true⟩], 10, 100⟩ "a"
    ⟨"a", 0, 0, [], [], true⟩ 11 (by simp) rfl (by norm_num)
  exact ⟨X.2.1, X.2.2.2.2.2⟩

/-- C6: `create_session` is idempotent per id before expiry — re-creating
an active, non-expired id returns the existing record (only
`last_accessed` refreshed), appends nothing to the store, and leaves the
existing message list untouched. -/
theorem create_session_idempotent (st : SMState) (id : String) (ex : PySession) (now : Nat)
    (hfind : lookupSession st.sessions id = some ex)
    (hact : ex.active = true)
    (hnexp : is_session_expired st.timeout now ex = false) :
    (create_session now id st).1 = { ex with last_accessed := now } ∧
    (create_session now id st).1.messages = ex.messages ∧
    (create_session now id st).2.sessions =
      setSession st.sessions id (fun x => { x with last_accessed := now }) ∧
    (create_session now id st).2.sessions.length = st.sessions.length ∧
    lookupSession (create_session now id st).2.sessions id =
      some { ex with last_accessed := now } := by
  have h1 : create_session now id st = ({ ex with last_accessed := now },
      { st with sessions :=
        setSession st.sessions id (fun s => { s with last_accessed := now }) }) := by
    simp [create_session, hfind, hact, hnexp]
  refine ⟨by rw [h1], by rw [h1], by rw [h1], ?_, ?_⟩
  · rw [h1]
    simp [setSession]
  · rw [h1]
    have := lookupSession_setSession st.sessions id
      (fun s => { s with last_accessed := now }) (fun x => rfl)
    simp only [this, hfind]
    rfl

/-- C6, instantiated: re-creating id `"a"` returns the stored record with
`last_accessed` refreshed and the store still holds one session. -/
theorem create_session_idempotent_witness :
    (create_session 5 "a" ⟨[⟨"a", 0, 0, [], [], true⟩], 10, 100⟩).1 =
      (⟨"a", 0, 5, [], [], true⟩ : PySession) ∧
    (create_session 5 "a" ⟨[⟨"a", 0, 0, [], [], true⟩], 10, 100⟩).2.sessions.length = 1 := by
  have X := create_session_idempotent ⟨[⟨"a", 0, 0, [], [], true⟩], 10, 100⟩ "a"
    ⟨"a", 0, 0, [], [], true⟩ 5 rfl rfl (by simp [is_session_expired])
  exact ⟨X.1, X.2.2.2.1⟩

/-- C4: with `max_active = 2` and two active, unexpired sessions stored,
creating a third distinct session deactivates exactly one existing session
— the one with the oldest `last_accessed` (first on ties, as Python's
`min`) — which becomes unreachable via `get_session` while its record
stays in the store; the other existing session and the new one remain
reachable. -/
theorem eviction_spec (s1 s2 : PySession) (T now : Nat) (id3 : String)
    (hne : s1.id ≠ s2.id) (h31 : s1.id ≠ id3) (h32 : s2.id ≠ id3)
    (hact1 : s1.active = true) (hact2 : s2.active = true)
    (hnexp1 : ¬ s1.last_accessed + T < now) (hnexp2 : ¬ s2.last_accessed + T < now) :
    (create_session now id3 ⟨[s1, s2], T, 2⟩).2.sessions.length = 3 ∧
    (get_session now (if s2.last_accessed < s1.last_accessed then s2 else s1).id
      (create_session now id3 ⟨[s1, s2], T, 2⟩).2).1 = none ∧
    ((get_session now (if s2.last_accessed < s1.last_accessed then s1 else s2).id
      (create_session now id3 ⟨[s1, s2], T, 2⟩).2).1).isSome = true ∧
    ((get_session now id3 (create_session now id3 ⟨[s1, s2], T, 2⟩).2).1).isSome = true ∧
    lookupSession (create_session now id3 ⟨[s1, s2], T, 2⟩).2.sessions
      (if s2.last_accessed < s1.last_accessed then s2 else s1).id =
      some { (if s2.last_accessed < s1.last_accessed then s2 else s1) with active := false } ∧
    ((create_session now id3 ⟨[s1, s2], T, 2⟩).2.sessions.filter
      (fun x => ¬ x.active)).length = 1 ∧
    (if s2.last_accessed < s1.last_accessed then s2 else s1).last_accessed ≤
      (if s2.last_accessed < s1.last_accessed then s1 else s2).last_accessed := by
  have hexp1 : is_session_expired T now s1 = false := by
    simp [is_session_expired, hact1, hnexp1]
  have hexp2 : is_session_expired T now s2 = false := by
    simp [is_session_expired, hact2, hnexp2]
  have h0 : lookupSession [s1, s2] id3 = none := by
    rw [lookupSession, List.find?_cons_of_neg _ (by simp [h31]),
      List.find?_cons_of_neg _ (by simp [h32])]
    rfl
  have hcount : activeCount now ⟨[s1, s2], T, 2⟩ = 2 := by
    simp [activeCount, hact1, hact2, hexp1, hexp2]
  have hclean : cleanup_sessions now ⟨[s1, s2], T, 2⟩ = (0, ⟨[s1, s2], T, 2⟩) := by
    simp [cleanup_sessions, hexp1, hexp2]
  by_cases hlt : s2.last_accessed < s1.last_accessed
  · have hens : ensure_session_capacity now ⟨[s1, s2], T, 2⟩ =
        ⟨[s1, { s2 with active := false }], T, 2⟩ := by
      simp only [ensure_session_capacity, hcount, hclean, ge_iff_le, le_refl, if_true]
      simp [hact1, hact2, hexp1, hexp2, minByLastAccessed, hlt, setSession, hne]
    have hcre : (create_session now id3 ⟨[s1, s2], T, 2⟩).2 =
        ⟨[s1, { s2 with active := false },
          ⟨id3, now, now, [], [], true⟩], T, 2⟩ := by
      simp only [create_session, h0, hens, putSession]
      rw [if_neg (by simp [h31, h32])]
      rfl
    rw [hcre]
    simp only [if_pos hlt]
    refine ⟨rfl, ?_, ?_, ?_, ?_, ?_, by omega⟩
    · simp only [get_session, lookupSession]
      rw [List.find?_cons_of_neg _ (by simp [hne]), List.find?_cons_of_pos _ (by simp)]
      simp [is_session_expired]
    · simp only [get_session, lookupSession]
      rw [List.find?_cons_of_pos _ (by simp)]
      simp [hexp1]
    · simp only [get_session, lookupSession]
      rw [List.find?_cons_of_neg _ (by simp [h31]),
        List.find?_cons_of_neg _ (by simp [h32]), List.find?_cons_of_pos _ (by simp)]
      simp [is_session_expired]
    · simp only [lookupSession]
      rw [List.find?_cons_of_neg _ (by simp [hne]), List.find?_cons_of_pos _ (by simp)]
    · simp [hact1, h31, h32]
  · have hens : ensure_session_capacity now ⟨[s1, s2], T, 2⟩ =
        ⟨[{ s1 with active := false }, s2], T, 2⟩ := by
      simp only [ensure_session_capacity, hcount, hclean, ge_iff_le, le_refl, if_true]
      simp [hact1, hact2, hexp1, hexp2, minByLastAccessed, hlt, setSession, Ne.symm hne]
    have hcre : (create_session now id3 ⟨[s1, s2], T, 2⟩).2 =
        ⟨[{ s1 with active := false }, s2,
          ⟨id3, now, now, [], [], true⟩], T, 2⟩ := by
      simp only [create_session, h0, hens, putSession]
      rw [if_neg (by simp [h31, h32])]
      rfl
    rw [hcre]
    simp only [if_neg hlt]
    refine ⟨rfl, ?_, ?_, ?_, ?_, ?_, by omega⟩
    · simp only [get_session, lookupSession]
      rw [List.find?_cons_of_pos _ (by simp)]
      simp [is_session_expired]
    · simp only [get_session, lookupSession]
      rw [List.find?_cons_of_neg _ (by simp [hne]), List.find?_cons_of_pos _ (by simp)]
      simp [hexp2]
    · simp only [get_session, lookupSession]
      rw [List.find?_cons_of_neg _ (by simp [h31]),
        List.find?_cons_of_neg _ (by simp [h32]), List.find?_cons_of_pos _ (by simp)]
      simp [is_session_expired]
    · simp only [lookupSession]
      rw [List.find?_cons_of_pos _ (by simp)]
    · simp [hact2, h31, h32]

/-- C4, instantiated: sessions `"a"` (last accessed 1) and `"b"` (last
accessed 0) at capacity 2; creating `"c"` evicts `"b"` and keeps three
records stored. -/
theorem eviction_spec_witness :
    (create_session 5 "c"
      ⟨[⟨"a", 0, 1, [], [], true⟩, ⟨"b", 0, 0, [], [], true⟩], 10, 2⟩).2.sessions.length = 3 ∧
    (get_session 5 "b" (create_session 5 "c"
      ⟨[⟨"a", 0, 1, [], [], true⟩, ⟨"b", 0, 0, [], [], true⟩], 10, 2⟩).2).1 = none ∧
    ((get_session 5 "a" (create_session 5 "c"
      ⟨[⟨"a", 0, 1, [], [], true⟩, ⟨"b", 0, 0, [], [], true⟩], 10, 2⟩).2).1).isSome = true ∧
    ((get_session 5 "c" (create_session 5 "c"
      ⟨[⟨"a", 0, 1, [], [], true⟩, ⟨"b", 0, 0, [], [], true⟩], 10, 2⟩).2).1).isSome = true := by
  have X := eviction_spec ⟨"a", 0, 1, [], [], true⟩ ⟨"b", 0, 0, [], [], true⟩ 10 5 "c"
    (by decide) (by decide) (by decide) rfl rfl (by omega) (by omega)
  exact ⟨X.1, X.2.1, X.2.2.1, X.2.2.2.1⟩

theorem h_find_refresh (l : List HSession) (id : String)
    (f : HSession → HSession) (hf : ∀ x, (f x).id = x.id) :
    (l.map (fun x => if x.id = id then f x else x)).find? (fun x => x.id = id) =
      (l.find? (fun x => x.id = id)).map f := by
  induction l with
  | nil => rfl
  | cons a l ih =>
    simp only [List.map_cons]
    by_cases h : a.id = id
    · rw [if_pos h, List.find?_cons_of_pos _ (by simp [hf, h]),
        List.find?_cons_of_pos _ (by simp [h])]
      rfl
    · rw [if_neg h, List.find?_cons_of_neg _ (by simp [h]),
        List.find?_cons_of_neg _ (by simp [h])]
      exact ih

/-- C9 counterexample: with no limit, `get_session_messages` hands back the
session's live message cell — a subsequent `update_session` append changes
the collection previously returned to the caller. -/
theorem get_messages_alias_counterexample :
    readRef (h_update_session 0 "s" ⟨"user", some "m2", none, none⟩
        (h_get_session_messages 0 "s" none
          ⟨[[⟨"user", some "hi", none, none⟩]], [⟨"s", 0, 0, 0, true⟩], 100⟩).2).2
      (h_get_session_messages 0 "s" none
        ⟨[[⟨"user", some "hi", none, none⟩]], [⟨"s", 0, 0, 0, true⟩], 100⟩).1 ≠
    readRef (h_get_session_messages 0 "s" none
        ⟨[[⟨"user", some "hi", none, none⟩]], [⟨"s", 0, 0, 0, true⟩], 100⟩).2
      (h_get_session_messages 0 "s" none
        ⟨[[⟨"user", some "hi", none, none⟩]], [⟨"s", 0, 0, 0, true⟩], 100⟩).1 := by
  decide

theorem h_get_refresh_state (st : HState) (id : String) (s : HSession) (now : Nat)
    (hfind : st.sessions.find? (fun x => x.id = id) = some s)
    (hact : s.active = true)
    (hnexp : ¬ s.last_accessed + st.timeout < now) :
    h_get_session now id st = (some { s with last_accessed := now },
      { st with sessions := st.sessions.map (fun x => if x.id = id then { x with last_accessed := now } else x) }) := by
  have hexp : h_is_expired st.timeout now s = false := by
    simp [h_is_expired, hact, hnexp]
  simp [h_get_session, hfind, hexp]

/-- C9 amended: the collection returned by `get_session_messages` is a
fresh copy only when `limit` is truthy and the log is longer than the
limit (the `messages[-limit:]` slice); otherwise the live list is
returned and a subsequent append through `update_session` is visible via
the returned collection. -/
theorem get_messages_amended (st : HState) (id : String) (s : HSession) (now : Nat)
    (limit : Option Nat) (m : Msg)
    (hfind : st.sessions.find? (fun x => x.id = id) = some s)
    (hact : s.active = true)
    (hnexp : ¬ s.last_accessed + st.timeout < now)
    (href : s.msgRef < st.heap.length) :
    (¬ (match limit with
        | some l => l ≠ 0 ∧ (readRef st s.msgRef).length > l
        | none => False) →
      (h_get_session_messages now id limit st).1 = s.msgRef ∧
      readRef (h_update_session now id m
          (h_get_session_messages now id limit st).2).2
        (h_get_session_messages now id limit st).1 =
        readRef st s.msgRef ++ [m]) ∧
    ((match limit with
        | some l => l ≠ 0 ∧ (readRef st s.msgRef).length > l
        | none => False) →
      (h_get_session_messages now id limit st).1 = st.heap.length ∧
      readRef (h_update_session now id m
          (h_get_session_messages now id limit st).2).2
        (h_get_session_messages now id limit st).1 =
        readRef (h_get_session_messages now id limit st).2
          (h_get_session_messages now id limit st).1) := by
  have hget := h_get_refresh_state st id s now hfind hact hnexp
  have hfind2 : (st.sessions.map
      (fun x => if x.id = id then { x with last_accessed := now } else x)).find?
        (fun x => x.id = id) = some { s with last_accessed := now } := by
    rw [h_find_refresh st.sessions id (fun x => { x with last_accessed := now })
      (fun x => rfl), hfind]
    rfl
  constructor
  · intro hno
    have hmsgs : h_get_session_messages now id limit st = (s.msgRef,
        { st with sessions :=
          st.sessions.map (fun x => if x.id = id then { x with last_accessed := now } else x) }) := by
      simp only [h_get_session_messages, hget]
      rw [if_neg]
      cases limit with
      | none => simp
      | some l =>
        simp only [readRef] at hno ⊢
        simpa using hno
    rw [hmsgs]
    refine ⟨rfl, ?_⟩
    have hupd := h_get_refresh_state
      { st with sessions :=
        st.sessions.map (fun x => if x.id = id then { x with last_accessed := now } else x) }
      id { s with last_accessed := now } now hfind2 hact (by simp)
    simp only [h_update_session, hupd]
    simp only [readRef, List.getD]
    rw [List.get?_set_eq_of_lt _ (by simpa using href)]
    simp
  · intro hyes
    cases limit with
    | none => simp at hyes
    | some l =>
      obtain ⟨hl0, hlen⟩ := hyes
      have hmsgs : h_get_session_messages now id (some l) st = (st.heap.length,
          { st with
            heap := st.heap ++ [(readRef st s.msgRef).drop ((readRef st s.msgRef).length - l)],
            sessions :=
              st.sessions.map (fun x => if x.id = id then { x with last_accessed := now } else x) }) := by
        simp only [h_get_session_messages, hget]
        rw [if_pos]
        · simp [readRef]
        · simp only [readRef] at hlen ⊢
          simp only [List.getD, List.get?_eq_getElem?] at hlen
          simp [hl0, hlen]
      rw [hmsgs]
      refine ⟨rfl, ?_⟩
      have hupd := h_get_refresh_state
        { st with
          heap := st.heap ++ [(readRef st s.msgRef).drop ((readRef st s.msgRef).length - l)],
          sessions :=
            st.sessions.map (fun x => if x.id = id then { x with last_accessed := now } else x) }
        id { s with last_accessed := now } now hfind2 hact (by simp)
      simp only [h_update_session, hupd]
      simp only [readRef, List.getD]
      rw [List.get?_set_ne _ _ (by omega)]

/-- C9 amended, instantiated: the no-limit call aliases the live cell (an
append shows through), while a `limit = 2` call on a three-message log
returns a fresh cell that later appends leave unchanged. -/
theorem get_messages_amended_witness :
    ((h_get_session_messages 0 "s" none
        ⟨[[⟨"user", some "1", none, none⟩]], [⟨"s", 0, 0, 0, true⟩], 100⟩).1 = 0 ∧
      readRef (h_update_session 0 "s" ⟨"user", some "x", none, none⟩
          (h_get_session_messages 0 "s" none
            ⟨[[⟨"user", some "1", none, none⟩]], [⟨"s", 0, 0, 0, true⟩], 100⟩).2).2
        (h_get_session_messages 0 "s" none
          ⟨[[⟨"user", some "1", none, none⟩]], [⟨"s", 0, 0, 0, true⟩], 100⟩).1 =
        readRef ⟨[[⟨"user", some "1", none, none⟩]], [⟨"s", 0, 0, 0, true⟩], 100⟩ 0 ++
          [⟨"user", some "x", none, none⟩]) ∧
    ((h_get_session_messages 0 "s" (some 2)
        ⟨[[⟨"user", some "1", none, none⟩, ⟨"user", some "2", none, none⟩,
           ⟨"user", some "3", none, none⟩]], [⟨"s", 0, 0, 0, true⟩], 100⟩).1 = 1 ∧
      readRef (h_update_session 0 "s" ⟨"user", some "x", none, none⟩
          (h_get_session_messages 0 "s" (some 2)
            ⟨[[⟨"user", some "1", none, none⟩, ⟨"user", some "2", none, none⟩,
               ⟨"user", some "3", none, none⟩]], [⟨"s", 0, 0, 0, true⟩], 100⟩).2).2
        (h_get_session_messages 0 "s" (some 2)
          ⟨[[⟨"user", some "1", none, none⟩, ⟨"user", some "2", none, none⟩,
             ⟨"user", some "3", none, none⟩]], [⟨"s", 0, 0, 0, true⟩], 100⟩).1 =
        readRef (h_get_session_messages 0 "s" (some 2)
            ⟨[[⟨"user", some "1", none, none⟩, ⟨"user", some "2", none, none⟩,
               ⟨"user", some "3", none, none⟩]], [⟨"s", 0, 0, 0, true⟩], 100⟩).2
          (h_get_session_messages 0 "s" (some 2)
            ⟨[[⟨"user", some "1", none, none⟩, ⟨"user", some "2", none, none⟩,
               ⟨"user", some "3", none, none⟩]], [⟨"s", 0, 0, 0, true⟩], 100⟩).1) := by
  have A := get_messages_amended
    ⟨[[⟨"user", some "1", none, none⟩]], [⟨"s", 0, 0, 0, true⟩], 100⟩
    "s" ⟨"s", 0, 0, 0, true⟩ 0 none ⟨"user", some "x", none, none⟩
    rfl rfl (by omega) (by norm_num)
  have B := get_messages_amended
    ⟨[[⟨"user", some "1", none, none⟩, ⟨"user", some "2", none, none⟩,
       ⟨"user", some "3", none, none⟩]], [⟨"s", 0, 0, 0, true⟩], 100⟩
    "s" ⟨"s", 0, 0, 0, true⟩ 0 (some 2) ⟨"user", some "x", none, none⟩
    rfl rfl (by omega) (by norm_num)
  exact ⟨A.1 (by simp), B.2 ⟨by decide, by decide⟩⟩

/-! Capacity-invariant infrastructure -/

def InvAt (t : Nat) (st : SMState) : Prop :=
  (st.sessions.map (fun s => s.id)).Nodup ∧ activeCount t st ≤ st.max_active

theorem is_expired_mono (T t t' : Nat) (s : PySession) (h : t ≤ t')
    (he : is_session_expired T t s = true) : is_session_expired T t' s = true := by
  simp only [is_session_expired] at *
  split at he <;> split <;> simp_all <;> omega

theorem activeCount_eq (t : Nat) (st : SMState) :
    activeCount t st =
      st.sessions.countP (fun s => s.active ∧ ¬ is_session_expired st.timeout t s) := by
  rw [activeCount, List.countP_eq_length_filter]

theorem activeCount_antitone (t t' : Nat) (st : SMState) (h : t ≤ t') :
    activeCount t' st ≤ activeCount t st := by
  rw [activeCount_eq, activeCount_eq]
  apply List.countP_mono_left
  intro x _ hx
  simp only [decide_eq_true_eq, Bool.decide_and, Bool.and_eq_true, decide_eq_true_eq,
    Bool.not_eq_true'] at hx ⊢
  refine ⟨hx.1, ?_⟩
  by_contra hc
  have := is_expired_mono st.timeout t t' x h (by simpa using hc)
  rw [this] at hx
  exact absurd hx.2 (by simp)

theorem find_unique (l : List PySession) (id : String) (s : PySession)
    (hn : (l.map (fun x => x.id)).Nodup)
    (hfind : l.find? (fun x => x.id = id) = some s) :
    ∀ x ∈ l, x.id = id → x = s := by
  intro x hx hxid
  have hs := List.mem_of_find?_eq_some hfind
  have hsid : s.id = id := by simpa using List.find?_some hfind
  exact List.inj_on_of_nodup_map hn hx hs (by rw [hxid, hsid])

theorem countP_setSession_congr (l : List PySession) (id : String)
    (f : PySession → PySession) (p : PySession → Bool)
    (h : ∀ x ∈ l, x.id = id → p (f x) = p x) :
    (setSession l id f).countP p = l.countP p := by
  rw [setSession, List.countP_map]
  apply List.countP_congr
  intro x hx
  by_cases hid : x.id = id
  · simp [Function.comp, hid, h x hx hid]
  · simp [Function.comp, hid]

theorem setSession_no_match : ∀ (l : List PySession) (id : String) (f : PySession → PySession),
    (∀ x ∈ l, ¬ x.id = id) → setSession l id f = l
  | [], _, _, _ => rfl
  | a :: l, id, f, h => by
    simp only [setSession, List.map_cons] at *
    rw [if_neg (h a (List.mem_cons_self _ _))]
    have := setSession_no_match l id f (fun x hx => h x (List.mem_cons_of_mem _ hx))
    simp only [setSession] at this
    rw [this]

theorem nodup_ids_split (l₁ l₂ : List PySession) (s : PySession)
    (hn : ((l₁ ++ s :: l₂).map (fun x => x.id)).Nodup) :
    (∀ x ∈ l₁, ¬ x.id = s.id) ∧ (∀ x ∈ l₂, ¬ x.id = s.id) := by
  rw [List.map_append, List.map_cons, List.nodup_middle, List.nodup_cons,
    ← List.map_append] at hn
  constructor
  · intro x hx he
    apply hn.1
    rw [← he]
    exact List.mem_map_of_mem _ (List.mem_append_left _ hx)
  · intro x hx he
    apply hn.1
    rw [← he]
    exact List.mem_map_of_mem _ (List.mem_append_right _ hx)

theorem countP_setSession_dec (l : List PySession) (s : PySession)
    (f : PySession → PySession) (p : PySession → Bool)
    (hn : (l.map (fun x => x.id)).Nodup) (hs : s ∈ l)
    (hps : p s = true) (hpf : p (f s) = false) :
    (setSession l s.id f).countP p + 1 = l.countP p := by
  obtain ⟨l₁, l₂, rfl⟩ := List.append_of_mem hs
  obtain ⟨h1, h2⟩ := nodup_ids_split l₁ l₂ s hn
  have hset : setSession (l₁ ++ s :: l₂) s.id f = l₁ ++ f s :: l₂ := by
    simp only [setSession, List.map_append, List.map_cons, if_pos rfl, if_true]
    have e1 := setSession_no_match l₁ s.id f h1
    have e2 := setSession_no_match l₂ s.id f h2
    simp only [setSession] at e1 e2
    rw [e1, e2]
  rw [hset, List.countP_append, List.countP_append, List.countP_cons, List.countP_cons,
    hps, hpf]
  simp
  omega

theorem countP_putSession_le (l : List PySession) (sess : PySession) (p : PySession → Bool)
    (hn : (l.map (fun x => x.id)).Nodup) :
    (putSession l sess).countP p ≤ l.countP p + 1 := by
  rw [putSession]
  split
  · next hany =>
    obtain ⟨x, hx, hxid⟩ := List.any_eq_true.mp hany
    have hxid' : x.id = sess.id := by simpa using hxid
    obtain ⟨l₁, l₂, rfl⟩ := List.append_of_mem hx
    obtain ⟨h1, h2⟩ := nodup_ids_split l₁ l₂ x hn
    have hrepl : (l₁ ++ x :: l₂).map (fun y => if y.id = sess.id then sess else y) =
        l₁ ++ sess :: l₂ := by
      simp only [List.map_append, List.map_cons, if_pos hxid']
      have e1 := setSession_no_match l₁ sess.id (fun _ => sess)
        (fun y hy hc => h1 y hy (by rw [hc, hxid']))
      have e2 := setSession_no_match l₂ sess.id (fun _ => sess)
        (fun y hy hc => h2 y hy (by rw [hc, hxid']))
      simp only [setSession] at e1 e2
      rw [e1, e2]
    rw [hrepl, List.countP_append, List.countP_append, List.countP_cons, List.countP_cons]
    split <;> split <;> omega
  · rw [List.countP_append, List.countP_cons, List.countP_nil]
    split <;> omega

theorem nodup_putSession (l : List PySession) (sess : PySession)
    (hn : (l.map (fun x => x.id)).Nodup) :
    ((putSession l sess).map (fun x => x.id)).Nodup := by
  rw [putSession]
  split
  · next hany =>
    have : (l.map (fun y => if y.id = sess.id then sess else y)).map (fun x => x.id) =
        l.map (fun x => x.id) := by
      rw [List.map_map]
      apply List.map_congr_left
      intro x _
      by_cases h : x.id = sess.id <;> simp [h]
    rw [this]
    exact hn
  · next hany =>
    rw [List.map_append, List.map_singleton]
    have hnm : sess.id ∉ l.map (fun x => x.id) := by
      intro hc
      obtain ⟨y, hy, hyid⟩ := List.mem_map.mp hc
      rw [List.any_eq_true] at hany
      exact hany ⟨y, hy, by simp [hyid]⟩
    have h0 : (sess.id :: (l.map (fun x => x.id) ++ [])).Nodup := by
      rw [List.append_nil, List.nodup_cons]
      exact ⟨hnm, hn⟩
    have h2 := List.nodup_middle.mpr h0
    simpa using h2

theorem nodup_filter_ids (l : List PySession) (q : PySession → Bool)
    (hn : (l.map (fun x => x.id)).Nodup) :
    ((l.filter q).map (fun x => x.id)).Nodup :=
  ((List.filter_sublist l).map _).nodup hn

theorem active_of_not_expired (T t : Nat) (s : PySession)
    (h : is_session_expired T t s = false) :
    s.active = true ∧ ¬ (s.last_accessed + T < t) := by
  simp only [is_session_expired] at h
  split at h
  · cases h
  · next hact => exact ⟨by simpa using hact, by simpa using h⟩

theorem get_session_preserves (now : Nat) (id : String) (st : SMState)
    (hn : (st.sessions.map (fun x => x.id)).Nodup) :
    ((get_session now id st).2.sessions.map (fun x => x.id)).Nodup ∧
    activeCount now (get_session now id st).2 = activeCount now st ∧
    (get_session now id st).2.timeout = st.timeout ∧
    (get_session now id st).2.max_active = st.max_active := by
  rcases hf : lookupSession st.sessions id with _ | s
  · simp only [get_session, hf]
    refine ⟨hn, ?_, ?_, ?_⟩ <;> trivial
  · by_cases hexp : is_session_expired st.timeout now s = true
    · simp only [get_session, hf]
      rw [if_pos hexp]
      refine ⟨?_, ?_, rfl, rfl⟩
      · rw [setSession_map_id st.sessions id (fun x => { x with active := false })
          (fun x => rfl)]
        exact hn
      · rw [activeCount_eq, activeCount_eq]
        apply countP_setSession_congr
        intro x hx hxid
        have hxs := find_unique st.sessions id s hn hf x hx hxid
        subst hxs
        simp [hexp]
    · rw [Bool.not_eq_true] at hexp
      simp only [get_session, hf]
      rw [if_neg (by simp [hexp])]
      obtain ⟨hact, htime⟩ := active_of_not_expired st.timeout now s hexp
      refine ⟨?_, ?_, rfl, rfl⟩
      · rw [setSession_map_id st.sessions id (fun x => { x with last_accessed := now })
          (fun x => rfl)]
        exact hn
      · rw [activeCount_eq, activeCount_eq]
        apply countP_setSession_congr
        intro x hx hxid
        have hxs := find_unique st.sessions id s hn hf x hx hxid
        subst hxs
        simp only [is_session_expired, hact]
        simp [hexp, hact, htime]

theorem minBy_foldl_mem : ∀ (rest : List PySession) (a : PySession),
    rest.foldl (fun best x => if x.last_accessed < best.last_accessed then x else best) a ∈
      a :: rest
  | [], a => List.mem_cons_self _ _
  | x :: rest, a => by
    simp only [List.foldl_cons]
    have h := minBy_foldl_mem rest (if x.last_accessed < a.last_accessed then x else a)
    rcases List.mem_cons.mp h with h' | h'
    · rw [h']
      split
      · exact List.mem_cons_of_mem _ (List.mem_cons_self _ _)
      · exact List.mem_cons_self _ _
    · exact List.mem_cons_of_mem _ (List.mem_cons_of_mem _ h')

theorem minBy_mem (l : List PySession) (b : PySession)
    (h : minByLastAccessed l = some b) : b ∈ l := by
  cases l with
  | nil => cases h
  | cons a rest =>
    simp only [minByLastAccessed, Option.some.injEq] at h
    rw [← h]
    exact minBy_foldl_mem rest a

theorem cleanup_count_eq (now : Nat) (st : SMState)
    (hn : (st.sessions.map (fun x => x.id)).Nodup) :
    activeCount now (cleanup_sessions now st).2 = activeCount now st := by
  have hcl := cleanup_sessions_spec now st hn
  rw [activeCount_eq, activeCount_eq, hcl.1, hcl.2.2.1, List.countP_filter]
  apply List.countP_congr
  intro x hx
  by_cases h : is_session_expired st.timeout now x = true <;> simp [h]

theorem activeCount_withSessions (now : Nat) (X : SMState) (Y : List PySession) :
    activeCount now { X with sessions := Y } =
      Y.countP (fun s => s.active ∧ ¬ is_session_expired X.timeout now s) := by
  rw [activeCount_eq]

theorem ensure_capacity_bound (now : Nat) (st : SMState)
    (hn : (st.sessions.map (fun x => x.id)).Nodup) (hM : 1 ≤ st.max_active)
    (hc : activeCount now st ≤ st.max_active) :
    ((ensure_session_capacity now st).sessions.map (fun x => x.id)).Nodup ∧
    activeCount now (ensure_session_capacity now st) ≤ st.max_active - 1 ∧
    (ensure_session_capacity now st).timeout = st.timeout ∧
    (ensure_session_capacity now st).max_active = st.max_active := by
  by_cases h1 : activeCount now st ≥ st.max_active
  · simp only [ensure_session_capacity]
    rw [if_pos h1]
    have hcl := cleanup_sessions_spec now st hn
    have hcnt1 : activeCount now (cleanup_sessions now st).2 = activeCount now st :=
      cleanup_count_eq now st hn
    have hn1 : ((cleanup_sessions now st).2.sessions.map (fun x => x.id)).Nodup := by
      rw [hcl.1]
      exact nodup_filter_ids _ _ hn
    rw [if_pos (by rw [hcnt1, hcl.2.2.2]; exact h1)]
    rcases hmin : minByLastAccessed ((cleanup_sessions now st).2.sessions.filter
        (fun s => s.active ∧ ¬ is_session_expired (cleanup_sessions now st).2.timeout now s)) with _ | oldest
    · exfalso
      have hA : ((cleanup_sessions now st).2.sessions.filter
          (fun s => s.active ∧ ¬ is_session_expired (cleanup_sessions now st).2.timeout now s)) = [] := by
        cases hq : ((cleanup_sessions now st).2.sessions.filter
            (fun s => s.active ∧ ¬ is_session_expired (cleanup_sessions now st).2.timeout now s)) with
        | nil => rfl
        | cons a l => rw [hq] at hmin; cases hmin
      have hz : activeCount now (cleanup_sessions now st).2 = 0 := by
        rw [activeCount, hA]
        rfl
      rw [hcnt1] at hz
      omega
    · have hmem := minBy_mem _ _ hmin
      obtain ⟨hmem2, hp⟩ := List.mem_filter.mp hmem
      have hdec := countP_setSession_dec (cleanup_sessions now st).2.sessions oldest
        (fun x => { x with active := false })
        (fun s => s.active ∧ ¬ is_session_expired (cleanup_sessions now st).2.timeout now s)
        hn1 hmem2 hp (by simp)
      have heq : (cleanup_sessions now st).2.sessions.countP
          (fun s => s.active ∧ ¬ is_session_expired (cleanup_sessions now st).2.timeout now s) =
          activeCount now st := by
        rw [← activeCount_eq]
        exact hcnt1
      refine ⟨?_, ?_, hcl.2.2.1, hcl.2.2.2⟩
      · rw [setSession_map_id _ _ (fun x => { x with active := false }) (fun x => rfl)]
        exact hn1
      · rw [activeCount_withSessions]
        omega
  · simp only [ensure_session_capacity]
    rw [if_neg h1]
    exact ⟨hn, by omega, rfl, rfl⟩

theorem get_session_absent (now : Nat) (id : String) (st : SMState)
    (hf : lookupSession st.sessions id = none) :
    get_session now id st = (none, st) := by
  simp [get_session, hf]

theorem get_session_expired_eq (now : Nat) (id : String) (st : SMState) (s : PySession)
    (hf : lookupSession st.sessions id = some s)
    (hexp : is_session_expired st.timeout now s = true) :
    get_session now id st = (none,
      { st with sessions := setSession st.sessions id (fun x => { x with active := false }) }) := by
  simp only [get_session, hf]
  rw [if_pos hexp]

theorem get_session_live_eq (now : Nat) (id : String) (st : SMState) (s : PySession)
    (hf : lookupSession st.sessions id = some s)
    (hexp : is_session_expired st.timeout now s = false) :
    get_session now id st = (some { s with last_accessed := now },
      { st with sessions := setSession st.sessions id (fun x => { x with last_accessed := now }) }) := by
  simp only [get_session, hf]
  rw [if_neg (by simp [hexp])]

theorem refresh_setSession_count (now : Nat) (id : String) (st : SMState) (s : PySession)
    (hn : (st.sessions.map (fun x => x.id)).Nodup)
    (hf : lookupSession st.sessions id = some s)
    (hexp : is_session_expired st.timeout now s = false)
    (f : PySession → PySession)
    (hfact : ∀ x, (f x).active = x.active) (hfla : ∀ x, (f x).last_accessed = now) :
    (setSession (setSession st.sessions id (fun x => { x with last_accessed := now })) id f).countP
        (fun x => x.active ∧ ¬ is_session_expired st.timeout now x) =
      activeCount now st := by
  obtain ⟨hact, htime⟩ := active_of_not_expired st.timeout now s hexp
  have hn1 : ((setSession st.sessions id (fun x => { x with last_accessed := now })).map
      (fun x => x.id)).Nodup := by
    rw [setSession_map_id st.sessions id (fun x => { x with last_accessed := now })
      (fun x => rfl)]
    exact hn
  have hf1 : lookupSession (setSession st.sessions id
      (fun x => { x with last_accessed := now })) id = some { s with last_accessed := now } := by
    rw [lookupSession_setSession st.sessions id (fun x => { x with last_accessed := now })
      (fun x => rfl), hf]
    rfl
  rw [countP_setSession_congr]
  · rw [activeCount_eq]
    apply countP_setSession_congr
    intro x hx hxid
    have hxs := find_unique st.sessions id s hn hf x hx hxid
    subst hxs
    simp only [is_session_expired, hact]
    simp [hexp, hact, htime]
  · intro x hx hxid
    have hxs := find_unique _ id { s with last_accessed := now } hn1 hf1 x hx hxid
    subst hxs
    simp only [is_session_expired, hfact, hfla, hact]

theorem update_session_preserves (now : Nat) (id : String) (m : Msg) (st : SMState)
    (hn : (st.sessions.map (fun x => x.id)).Nodup) :
    (((update_session now id m st).2.sessions.map (fun x => x.id)).Nodup) ∧
    activeCount now (update_session now id m st).2 = activeCount now st ∧
    (update_session now id m st).2.timeout = st.timeout ∧
    (update_session now id m st).2.max_active = st.max_active := by
  rcases hf : lookupSession st.sessions id with _ | s
  · rw [update_session, get_session_absent now id st hf]
    exact ⟨hn, rfl, rfl, rfl⟩
  · by_cases hexp : is_session_expired st.timeout now s = true
    · rw [update_session, get_session_expired_eq now id st s hf hexp]
      have h := get_session_preserves now id st hn
      rw [get_session_expired_eq now id st s hf hexp] at h
      exact h
    · rw [Bool.not_eq_true] at hexp
      rw [update_session, get_session_live_eq now id st s hf hexp]
      refine ⟨?_, ?_, rfl, rfl⟩
      · rw [setSession_map_id _ id
          (fun x => { x with messages := x.messages ++ [m], last_accessed := now }) (fun x => rfl),
          setSession_map_id st.sessions id (fun x => { x with last_accessed := now }) (fun x => rfl)]
        exact hn
      · rw [activeCount_withSessions]
        exact refresh_setSession_count now id st s hn hf hexp
          (fun x => { x with messages := x.messages ++ [m], last_accessed := now })
          (fun x => rfl) (fun x => rfl)

theorem set_session_metadata_preserves (now : Nat) (id key : String) (v : Json) (st : SMState)
    (hn : (st.sessions.map (fun x => x.id)).Nodup) :
    (((set_session_metadata now id key v st).2.sessions.map (fun x => x.id)).Nodup) ∧
    activeCount now (set_session_metadata now id key v st).2 = activeCount now st ∧
    (set_session_metadata now id key v st).2.timeout = st.timeout ∧
    (set_session_metadata now id key v st).2.max_active = st.max_active := by
  rcases hf : lookupSession st.sessions id with _ | s
  · rw [set_session_metadata, get_session_absent now id st hf]
    exact ⟨hn, rfl, rfl, rfl⟩
  · by_cases hexp : is_session_expired st.timeout now s = true
    · rw [set_session_metadata, get_session_expired_eq now id st s hf hexp]
      have h := get_session_preserves now id st hn
      rw [get_session_expired_eq now id st s hf hexp] at h
      exact h
    · rw [Bool.not_eq_true] at hexp
      rw [set_session_metadata, get_session_live_eq now id st s hf hexp]
      refine ⟨?_, ?_, rfl, rfl⟩
      · rw [setSession_map_id _ id
          (fun s => { s with
            metadata := if s.metadata.any (fun kv => kv.1 = key)
              then s.metadata.map (fun kv => if kv.1 = key then (key, v) else kv)
              else s.metadata ++ [(key, v)],
            last_accessed := now }) (fun x => rfl),
          setSession_map_id st.sessions id (fun x => { x with last_accessed := now }) (fun x => rfl)]
        exact hn
      · rw [activeCount_withSessions]
        exact refresh_setSession_count now id st s hn hf hexp
          (fun s => { s with
            metadata := if s.metadata.any (fun kv => kv.1 = key)
              then s.metadata.map (fun kv => if kv.1 = key then (key, v) else kv)
              else s.metadata ++ [(key, v)],
            last_accessed := now })
          (fun x => rfl) (fun x => rfl)

theorem get_session_metadata_preserves (now : Nat) (id : String) (key : Option String)
    (st : SMState) (hn : (st.sessions.map (fun x => x.id)).Nodup) :
    (((get_session_metadata now id key st).2.sessions.map (fun x => x.id)).Nodup) ∧
    activeCount now (get_session_metadata now id key st).2 = activeCount now st ∧
    (get_session_metadata now id key st).2.timeout = st.timeout ∧
    (get_session_metadata now id key st).2.max_active = st.max_active := by
  have h := get_session_preserves now id st hn
  rw [get_session_metadata]
  rcases hg : get_session now id st with ⟨o, st'⟩
  rw [hg] at h
  cases o with
  | none => exact h
  | some s => cases key with
    | none => exact h
    | some k => exact h

theorem create_session_preserves (now : Nat) (id : String) (st : SMState)
    (hn : (st.sessions.map (fun x => x.id)).Nodup)
    (hM : 1 ≤ st.max_active)
    (hc : activeCount now st ≤ st.max_active) :
    (((create_session now id st).2.sessions.map (fun x => x.id)).Nodup) ∧
    activeCount now (create_session now id st).2 ≤ st.max_active ∧
    (create_session now id st).2.timeout = st.timeout ∧
    (create_session now id st).2.max_active = st.max_active := by
  have he := ensure_capacity_bound now st hn hM hc
  have hfresh : ∀ (sess : PySession),
      (((putSession (ensure_session_capacity now st).sessions sess).map (fun x => x.id)).Nodup) ∧
      activeCount now { ensure_session_capacity now st with
        sessions := putSession (ensure_session_capacity now st).sessions sess } ≤
        st.max_active := by
    intro sess
    refine ⟨nodup_putSession _ _ he.1, ?_⟩
    rw [activeCount_withSessions]
    have hle := countP_putSession_le (ensure_session_capacity now st).sessions sess
      (fun s => s.active ∧ ¬ is_session_expired (ensure_session_capacity now st).timeout now s)
      he.1
    have heq : (ensure_session_capacity now st).sessions.countP
        (fun s => s.active ∧ ¬ is_session_expired (ensure_session_capacity now st).timeout now s) =
        activeCount now (ensure_session_capacity now st) := (activeCount_eq _ _).symm
    have hb := he.2.1
    omega
  rcases hf : lookupSession st.sessions id with _ | existing
  · simp only [create_session, hf]
    obtain ⟨h1, h2⟩ := hfresh
      { id := id, created_at := now, last_accessed := now,
        messages := [], metadata := [], active := true }
    exact ⟨h1, h2, he.2.2.1, he.2.2.2⟩
  · simp only [create_session, hf]
    split
    · next hcond =>
      have hexp : is_session_expired st.timeout now existing = false := by
        simpa using hcond.2
      have hact : existing.active = true := by simpa using hcond.1
      obtain ⟨hact2, htime⟩ := active_of_not_expired st.timeout now existing hexp
      refine ⟨?_, ?_, rfl, rfl⟩
      · rw [setSession_map_id st.sessions id (fun x => { x with last_accessed := now })
          (fun x => rfl)]
        exact hn
      · rw [activeCount_withSessions]
        have hcongr := countP_setSession_congr st.sessions id
          (fun x => { x with last_accessed := now })
          (fun s => s.active ∧ ¬ is_session_expired st.timeout now s)
          (by
            intro x hx hxid
            have hxs := find_unique st.sessions id existing hn hf x hx hxid
            subst hxs
            simp only [is_session_expired, hact]
            simp [hexp, hact, htime])
        rw [hcongr, ← activeCount_eq]
        exact hc
    · obtain ⟨h1, h2⟩ := hfresh
        { id := id, created_at := now, last_accessed := now,
          messages := [], metadata := [], active := true }
      exact ⟨h1, h2, he.2.2.1, he.2.2.2⟩

theorem delete_session_preserves (now : Nat) (id : String) (st : SMState)
    (hn : (st.sessions.map (fun x => x.id)).Nodup) :
    (((delete_session id st).2.sessions.map (fun x => x.id)).Nodup) ∧
    activeCount now (delete_session id st).2 ≤ activeCount now st ∧
    (delete_session id st).2.timeout = st.timeout ∧
    (delete_session id st).2.max_active = st.max_active := by
  rw [delete_session]
  split
  · refine ⟨nodup_filter_ids _ _ hn, ?_, rfl, rfl⟩
    rw [activeCount_withSessions, activeCount_eq]
    exact (List.filter_sublist _).countP_le _
  · exact ⟨hn, le_refl _, rfl, rfl⟩

theorem cleanup_sessions_preserves (now : Nat) (st : SMState)
    (hn : (st.sessions.map (fun x => x.id)).Nodup) :
    (((cleanup_sessions now st).2.sessions.map (fun x => x.id)).Nodup) ∧
    activeCount now (cleanup_sessions now st).2 = activeCount now st ∧
    (cleanup_sessions now st).2.timeout = st.timeout ∧
    (cleanup_sessions now st).2.max_active = st.max_active := by
  have hcl := cleanup_sessions_spec now st hn
  refine ⟨?_, cleanup_count_eq now st hn, hcl.2.2.1, hcl.2.2.2⟩
  rw [hcl.1]
  exact nodup_filter_ids _ _ hn

theorem smStep_preserves (now : Nat) (op : SMOp) (st : SMState)
    (hn : (st.sessions.map (fun x => x.id)).Nodup)
    (hM : 1 ≤ st.max_active)
    (hc : activeCount now st ≤ st.max_active) :
    (((smStep now op st).sessions.map (fun x => x.id)).Nodup) ∧
    activeCount now (smStep now op st) ≤ st.max_active ∧
    (smStep now op st).timeout = st.timeout ∧
    (smStep now op st).max_active = st.max_active := by
  cases op with
  | create id =>
    exact create_session_preserves now id st hn hM hc
  | get id =>
    have h := get_session_preserves now id st hn
    exact ⟨h.1, h.2.1 ▸ hc, h.2.2⟩
  | update id m =>
    have h := update_session_preserves now id m st hn
    exact ⟨h.1, h.2.1 ▸ hc, h.2.2⟩
  | delete id =>
    have h := delete_session_preserves now id st hn
    exact ⟨h.1, le_trans h.2.1 hc, h.2.2⟩
  | setMeta id key v =>
    have h := set_session_metadata_preserves now id key v st hn
    exact ⟨h.1, h.2.1 ▸ hc, h.2.2⟩
  | getMeta id key =>
    have h := get_session_metadata_preserves now id key st hn
    exact ⟨h.1, h.2.1 ▸ hc, h.2.2⟩
  | getMessages id =>
    have h := get_session_preserves now id st hn
    exact ⟨h.1, h.2.1 ▸ hc, h.2.2⟩
  | cleanup =>
    have h := cleanup_sessions_preserves now st hn
    exact ⟨h.1, h.2.1 ▸ hc, h.2.2⟩

theorem runOps_preserves : ∀ (trace : List (Nat × SMOp)) (st : SMState) (t0 : Nat),
    List.Chain (fun a b => a ≤ b) t0 (trace.map Prod.fst) →
    ((st.sessions.map (fun x => x.id)).Nodup) →
    1 ≤ st.max_active →
    activeCount t0 st ≤ st.max_active →
    (((runOps trace st).sessions.map (fun x => x.id)).Nodup) ∧
    activeCount ((trace.map Prod.fst).getLastD t0) (runOps trace st) ≤ st.max_active ∧
    (runOps trace st).timeout = st.timeout ∧
    (runOps trace st).max_active = st.max_active
  | [], st, t0, _, hn, _, hc => ⟨hn, hc, rfl, rfl⟩
  | (n, op) :: rest, st, t0, hchain, hn, hM, hc => by
    rw [List.map_cons, List.chain_cons] at hchain
    obtain ⟨h0n, hchain'⟩ := hchain
    have hcn : activeCount n st ≤ st.max_active :=
      le_trans (activeCount_antitone t0 n st h0n) hc
    have hstep := smStep_preserves n op st hn hM hcn
    have hrest := runOps_preserves rest (smStep n op st) n hchain' hstep.1
      (hstep.2.2.2 ▸ hM) (hstep.2.2.2 ▸ hstep.2.1)
    have hruneq : runOps ((n, op) :: rest) st = runOps rest (smStep n op st) := rfl
    rw [hruneq, List.map_cons, List.getLastD_cons]
    exact ⟨hrest.1, hstep.2.2.2 ▸ hrest.2.1,
      hrest.2.2.1.trans hstep.2.2.1, hrest.2.2.2.trans hstep.2.2.2⟩

/-- C10 amended: the implicit capacity invariant holds provided
`max_active ≥ 1`: starting from an empty store, after any sequence of
session-manager operations run at non-decreasing times, the number of
active, non-expired sessions at any later time is at most `max_active`.
(The unamended claim fails at `max_active = 0`, see the counterexample.) -/
theorem capacity_invariant_amended (T M : Nat) (trace : List (Nat × SMOp)) (t : Nat)
    (hM : 1 ≤ M)
    (hchain : List.Chain (fun a b => a ≤ b) 0 (trace.map Prod.fst))
    (ht : ∀ p ∈ trace, p.1 ≤ t) :
    activeCount t (runOps trace (emptySM T M)) ≤ M := by
  have hrun := runOps_preserves trace (emptySM T M) 0 hchain (by simp [emptySM])
    hM (by simp [activeCount, emptySM])
  have hlast : (trace.map Prod.fst).getLastD 0 ≤ t := by
    have hmem := List.getLastD_mem_cons (trace.map Prod.fst) 0
    rcases List.mem_cons.mp hmem with h | h
    · omega
    · obtain ⟨p, hp, hpe⟩ := List.mem_map.mp h
      rw [← hpe]
      exact ht p hp
  calc activeCount t (runOps trace (emptySM T M))
      ≤ activeCount ((trace.map Prod.fst).getLastD 0) (runOps trace (emptySM T M)) :=
        activeCount_antitone _ t _ hlast
    _ ≤ M := hrun.2.1

/-- C10 counterexample: with `max_active = 0`, `create_session` still
inserts a fresh active session — `_ensure_session_capacity` finds no
active session to evict from an empty store — so the active count
exceeds `max_active`. -/
theorem capacity_invariant_counterexample :
    (emptySM 10 0).max_active = 0 ∧
    activeCount 0 (runOps [(0, SMOp.create "a")] (emptySM 10 0)) = 1 := by
  constructor
  · rfl
  · decide

/-- C10 witness: a concrete ascending three-create trace under
`max_active = 1` stays within capacity. -/
theorem capacity_invariant_amended_witness :
    1 ≤ 1 ∧
    List.Chain (fun a b => a ≤ b) 0
      ([(1, SMOp.create "a"), (2, SMOp.create "b"), (3, SMOp.create "c")].map Prod.fst) ∧
    (∀ p ∈ [(1, SMOp.create "a"), (2, SMOp.create "b"), (3, SMOp.create "c")], p.1 ≤ 4) ∧
    activeCount 4
      (runOps [(1, SMOp.create "a"), (2, SMOp.create "b"), (3, SMOp.create "c")]
        (emptySM 100 1)) ≤ 1 :=
  ⟨by decide, by simp [List.chain_cons], by decide,
   capacity_invariant_amended 100 1
     [(1, SMOp.create "a"), (2, SMOp.create "b"), (3, SMOp.create "c")] 4
     (by decide) (by simp [List.chain_cons]) (by decide)⟩
